import Mathlib

/-!
Verification of the hierarchical-agent chat client against its specification.

The definitions below are shallow embeddings of the repository's frontend
code: the SSE stream reader of `chatAPI.sendMessage`
(src/frontend/src/api/index.ts), the localStorage helpers (utils module),
the Pinia conversation store (stores/conversation module), the send guard of
the MainContent/ChatInput components, and — where the backend source is not
part of the repository snapshot — a model of the supervisor router built
from the specification's own words (marked as such).

Layout: all definitions first, then all theorems.
-/

namespace HierChat

/-! ### Generic list helper: mutate the first element satisfying a predicate

JavaScript code of the form `const x = xs.find(p); if (x) { mutate x }`
mutates the first matching element in place; `updateFirst` is that operation
on immutable lists. -/

def updateFirst {α : Type} (p : α → Bool) (f : α → α) : List α → List α
  | [] => []
  | x :: xs => if p x then f x :: xs else x :: updateFirst p f xs

/-! ### The SSE stream reader of `chatAPI.sendMessage`
(src/frontend/src/api/index.ts, lines 138–177)

The reader loop decodes each `reader.read()` result into a text chunk,
splits the chunk on `'\n'`, and processes each line: a line starting with
`'data: '` carries a payload `line.slice(6)`; the payload `'[DONE]'`
triggers `onComplete(accumulatedContent)` and returns; any other payload is
appended to `accumulatedContent` and forwarded to `onChunk`.

A decoded read chunk is represented by its line decomposition (the result
of `chunk.split('\n')`): a `List String` whose entries contain no newline.
The whole byte stream's own line decomposition is recovered by merging the
per-chunk decompositions at their boundaries (`streamLines`), since
`(a + b).split('\n')` glues the last line of `a` to the first line of `b`.

`String.startsWith` and `String.drop` are written out on the underlying
character lists so that every definition evaluates inside the kernel. -/

def strStartsWith (s pre : String) : Bool := pre.data.isPrefixOf s.data

def strDrop (s : String) (n : Nat) : String := ⟨s.data.drop n⟩

def dataPrefix : String := "data: "

def doneSentinel : String := "[DONE]"

/-- `line.startsWith('data: ')`. -/
def isDataLine (l : String) : Bool := strStartsWith l dataPrefix

/-- `line.slice(6)`. -/
def payloadOf (l : String) : String := strDrop l 6

/-- Observable callback activity of one `sendMessage` call: each `onChunk`
invocation and the final `onComplete` invocation, in order. -/
inductive SSEEvent where
  | chunk (data : String)
  | complete (content : String)
deriving DecidableEq, Repr

/-- The reader loop over a flat sequence of lines, threading
`accumulatedContent`. Mirrors the `for (const line of lines)` body; the
`return` after `onComplete` ends the whole loop, so processing one flat line
list is equivalent to the nested chunk/line loops of the source. -/
def processLines : List String → String → List SSEEvent
  | [], _ => []
  | l :: ls, acc =>
    if isDataLine l then
      if payloadOf l == doneSentinel then [SSEEvent.complete acc]
      else SSEEvent.chunk (payloadOf l) :: processLines ls (acc ++ payloadOf l)
    else processLines ls acc

/-- The lines the client actually iterates over: each read chunk is split
on `'\n'` separately, so the client sees the concatenation of the per-chunk
line decompositions. -/
def clientLines (chunks : List (List String)) : List String := chunks.flatten

/-- The callback events produced by `chatAPI.sendMessage` on a stream
delivered as the given read chunks. -/
def sendMessageEvents (chunks : List (List String)) : List SSEEvent :=
  processLines (clientLines chunks) ""

/-- Merge two line decompositions at their boundary: the last line of the
first chunk and the first line of the second are halves of one stream line. -/
def mergeLines : List String → List String → List String
  | [], bs => bs
  | [a], [] => [a]
  | [a], b :: bs => (a ++ b) :: bs
  | a :: a' :: as, bs => a :: mergeLines (a' :: as) bs

/-- The line decomposition of the whole byte stream (what `split('\n')` on
the concatenation of all chunks would give). -/
def streamLines (chunks : List (List String)) : List String :=
  chunks.foldr mergeLines [""]

/-! #### Specification-side view of the same stream

From the spec: a sequence of fragment events terminated by an explicit
end-of-stream sentinel distinct from any legitimate content; the recipient
accumulates fragments in arrival order to reconstruct full content. -/

def isSentinelLine (l : String) : Bool := isDataLine l && (payloadOf l == doneSentinel)

def isFragmentLine (l : String) : Bool := isDataLine l && !(payloadOf l == doneSentinel)

/-- The fragment payloads of a line sequence, in arrival order, up to the
first sentinel. -/
def fragments (lines : List String) : List String :=
  ((lines.takeWhile (fun l => !isSentinelLine l)).filter isFragmentLine).map payloadOf

def hasSentinel (lines : List String) : Bool := lines.any isSentinelLine

def concatAll (l : List String) : String := l.foldr (· ++ ·) ""

/-- The events the spec prescribes for a line sequence: every fragment
payload before the first sentinel forwarded in arrival order, then — iff the
sentinel occurs — one completion carrying the concatenation of those
fragments. -/
def specEvents (lines : List String) : List SSEEvent :=
  (fragments lines).map SSEEvent.chunk ++
    (if hasSentinel lines then [SSEEvent.complete (concatAll (fragments lines))] else [])

/-! ### The localStorage readers (frontend utils module)

`localStorage` is an external string-to-string map, modelled as a function
`String → Option String` (`getItem` returns `null` for a missing key).
`JSON.parse` is a platform primitive, external to the repository; it is
modelled as a function `String → Option Json`: `some` a parsed value, or
`none` when it throws. A JavaScript value deserialized from JSON. -/

inductive Json where
  | null
  | bool (b : Bool)
  | num (n : Int)
  | str (s : String)
  | arr (items : List Json)
  | obj (fields : List (String × Json))

def Json.isArr : Json → Bool
  | .arr _ => true
  | _ => false

/-- `STORAGE_KEYS.CONVERSATIONS`. -/
def CONVERSATIONS_KEY : String := "llm_conversations"

/-- `storage.getConversations`: reads the conversations key and parses it
inside a try/catch; `data ? JSON.parse(data) : []` — a missing key or an
empty string (falsy) yields `[]`, and a parse exception is caught and
yields `[]`. The parsed value is returned as-is (the `Conversation[]`
annotation is a compile-time cast only). -/
def getConversations (getItem : String → Option String)
    (parse : String → Option Json) : Json :=
  match getItem CONVERSATIONS_KEY with
  | none => Json.arr []
  | some data =>
    if data = "" then Json.arr []
    else match parse data with
      | some v => v
      | none => Json.arr []

/-- `loadFromLocalStorage(key)`: same shape with default `null`; a parse
exception is caught and yields `null`. -/
def loadFromLocalStorage (getItem : String → Option String)
    (parse : String → Option Json) (key : String) : Json :=
  match getItem key with
  | none => Json.null
  | some data =>
    if data = "" then Json.null
    else match parse data with
      | some v => v
      | none => Json.null

/-! ### The send guard (MainContent `handleSendMessage`, ChatInput `canSend`)

`handleSendMessage` returns early — with no effect and no error value —
when the content is blank or a send is already in flight (`isLoading`);
otherwise it forwards the content to the store's `sendMessage`.
`canSend` disables the send button on the same condition. The component
has no error channel for a concurrent submission: the outcome type below
is exactly what the code can do. -/

inductive SendAttemptResult where
  | ignored
  | forwarded
deriving DecidableEq, Repr

/-- `.trim()`: strip leading and trailing whitespace (written out on the
character list so that it evaluates inside the kernel). -/
def strTrim (s : String) : String :=
  ⟨((s.data.dropWhile Char.isWhitespace).reverse.dropWhile Char.isWhitespace).reverse⟩

/-- `if (!content.trim() || isLoading.value) return` then
`await conversationStore.sendMessage(content)`. -/
def handleSendMessage (content : String) (isLoading : Bool) : SendAttemptResult :=
  if strTrim content == "" || isLoading then SendAttemptResult.ignored
  else SendAttemptResult.forwarded

/-- `localValue.value.trim().length > 0 && !props.isLoading`. -/
def canSend (inputText : String) (isLoading : Bool) : Bool :=
  decide (0 < (strTrim inputText).length) && !isLoading

/-! ### Supervisor router (spec-modelled)

Modelled from the spec: the Supervisor Router state machine of §4.2 is part
of the backend source, which is not included in the repository snapshot
(only its README and TypeScript interface declarations are). The model
follows the spec's words: `INIT -> CLASSIFY`; classification selects
`DIRECT`, `RESEARCH` or `WRITING`; a team may hand control back, re-entering
`CLASSIFY`; a hop counter increments on every re-entry and exceeding the
fixed maximum (5) forces a transition to `AGGREGATE` using the best partial
output gathered so far, never to `FAILED`; `AGGREGATE` merges the gathered
output into the assistant message (the user always receives something) and
`COMPLETE` settles with a complete response. The environment — the
classifier's decision and each team's outcome at every hop — is
adversarial. -/

inductive SupState where
  | INIT
  | CLASSIFY
  | RESEARCH
  | WRITING
  | DIRECT
  | AGGREGATE
  | COMPLETE
  | FAILED
deriving DecidableEq, Repr

inductive Route where
  | direct
  | research
  | writing
deriving DecidableEq, Repr

/-- A team run's outcome at one hop: the textual output it contributed and
whether it handed control back to the supervisor for re-routing. -/
structure TeamResult where
  output : String
  handBack : Bool

/-- The adversarial environment of one request: what the classifier decides
and what each team produces at each hop. -/
structure SupEnv where
  classify : Nat → Route
  researchRun : Nat → TeamResult
  writingRun : Nat → TeamResult
  directAnswer : String

def maxHops : Nat := 5

/-- Modelled from the spec: `AGGREGATE` merges whatever output was produced
into the assistant message; the user always receives something rather than
a routing-loop error, so an empty gathering falls back to a notice. -/
def aggregateOut (gathered : String) : String :=
  if gathered = "" then "No output was produced." else gathered

/-- One `CLASSIFY` visit and everything after it: the trace of states
visited and the final aggregated content. `hops` counts `CLASSIFY`
re-entries so far; a re-entry past `maxHops` forces `AGGREGATE`. -/
def supGo (env : SupEnv) (hops : Nat) (gathered : String) :
    List SupState × String :=
  if hops > maxHops then ([SupState.AGGREGATE], aggregateOut gathered)
  else
    match env.classify hops with
    | Route.direct =>
      ([SupState.DIRECT, SupState.AGGREGATE],
        aggregateOut (gathered ++ env.directAnswer))
    | Route.research =>
      let r := env.researchRun hops
      if r.handBack then
        let next := supGo env (hops + 1) (gathered ++ r.output)
        (SupState.RESEARCH :: SupState.CLASSIFY :: next.1, next.2)
      else ([SupState.RESEARCH, SupState.AGGREGATE], aggregateOut (gathered ++ r.output))
    | Route.writing =>
      let r := env.writingRun hops
      if r.handBack then
        let next := supGo env (hops + 1) (gathered ++ r.output)
        (SupState.WRITING :: SupState.CLASSIFY :: next.1, next.2)
      else ([SupState.WRITING, SupState.AGGREGATE], aggregateOut (gathered ++ r.output))
termination_by maxHops + 1 - hops

/-- The complete visited-state trace of one request. -/
def supTrace (env : SupEnv) : List SupState :=
  SupState.INIT :: SupState.CLASSIFY :: (supGo env 0 "").1 ++ [SupState.COMPLETE]

/-- The response the client receives: `ChatResponse.is_complete` and
`content` (backend types, src/backend/src/types/types.ts). -/
structure SupResponse where
  content : String
  isComplete : Bool
deriving DecidableEq, Repr

def supervisorRespond (env : SupEnv) : SupResponse :=
  { content := (supGo env 0 "").2, isComplete := true }

/-! ### The conversation store (frontend types module and Pinia store)

State: `conversations` and `currentConversationId` (the refs), plus the
localStorage keys the store writes: `storedConversations` models the
`'conversations'` key as already-deserialized data (a missing, malformed or
non-array value is `none`, matching the `if (saved && Array.isArray(saved))`
guard on load), and `storedCurrentId` models the `'currentConversationId'`
key, which the store writes but never reads back.

Ambient values (`Date.now()`, `generateId()`) become explicit parameters of
each operation. -/

inductive Role where
  | user
  | assistant
deriving DecidableEq, Repr

structure Message where
  id : String
  role : Role
  content : String
  timestamp : Nat
  isStreaming : Bool := false
  displayContent : Option String := none
deriving DecidableEq, Repr

structure Conversation where
  id : String
  title : String
  messages : List Message
  model : String
  deepThink : Bool
  useSearch : Bool
  createdAt : Nat
  updatedAt : Nat
deriving DecidableEq, Repr

structure ConversationSettings where
  model : Option String := none
  deepThink : Option Bool := none
  useSearch : Option Bool := none
deriving DecidableEq, Repr

structure StoreState where
  conversations : List Conversation
  currentConversationId : Option String
  storedConversations : Option (List Conversation)
  storedCurrentId : Option String
deriving DecidableEq, Repr

structure FrontModel where
  id : String
  name : String
  description : String
  maxTokens : Nat
deriving DecidableEq, Repr

def DEFAULT_MODELS : List FrontModel :=
  [{ id := "deepseek-chat", name := "DeepSeek Chat",
     description := "高性能、免费的AI助手", maxTokens := 32768 }]

/-- `getDefaultModel`: finds `'deepseek-chat'` in `DEFAULT_MODELS`, falling
back to the first entry. -/
def getDefaultModel : String :=
  match DEFAULT_MODELS.find? (fun m => m.id == "deepseek-chat") with
  | some m => m.id
  | none =>
    match DEFAULT_MODELS with
    | m :: _ => m.id
    | [] => ""

def findConv (cs : List Conversation) (cid : String) : Option Conversation :=
  cs.find? (fun c => c.id == cid)

/-- The `currentConversation` computed ref:
`conversations.find(conv => conv.id === currentConversationId) || null`. -/
def currentConv (s : StoreState) : Option Conversation :=
  match s.currentConversationId with
  | none => none
  | some cid => findConv s.conversations cid

/-- `saveConversations`: `saveToLocalStorage('conversations', conversations)`. -/
def saveConvs (s : StoreState) : StoreState :=
  { s with storedConversations := some s.conversations }

/-- `loadConversations`: reads the saved array; when present, replaces the
in-memory list and, if there is no current conversation yet and the saved
list is non-empty, makes its first conversation current. -/
def loadConversations (s : StoreState) : StoreState :=
  match s.storedConversations with
  | none => s
  | some saved =>
    let cur :=
      match saved, s.currentConversationId with
      | c :: _, none => some c.id
      | _, cur => cur
    { s with conversations := saved, currentConversationId := cur }

/-- The conversation literal built by `createNewConversation`; the `||`
defaults follow JavaScript truthiness (an empty-string model falls back to
the default model). -/
def mkConversation (newId : String) (settings : Option ConversationSettings)
    (now : Nat) : Conversation :=
  { id := newId
    title := "新对话"
    messages := []
    model :=
      match settings.bind (fun st => st.model) with
      | some m => if m = "" then getDefaultModel else m
      | none => getDefaultModel
    deepThink := (settings.bind (fun st => st.deepThink)).getD false
    useSearch := (settings.bind (fun st => st.useSearch)).getD false
    createdAt := now
    updatedAt := now }

/-- `createNewConversation`: unshift the new conversation, make it current,
persist. -/
def createNewConversation (newId : String) (settings : Option ConversationSettings)
    (now : Nat) (s : StoreState) : StoreState :=
  saveConvs
    { s with
      conversations := mkConversation newId settings now :: s.conversations
      currentConversationId := some newId }

/-- `switchConversation`: only switches to a conversation that exists; also
writes the current id to localStorage. -/
def switchConversation (cid : String) (s : StoreState) : StoreState :=
  if (findConv s.conversations cid).isSome then
    { s with currentConversationId := some cid, storedCurrentId := some cid }
  else s

/-- `deleteConversation`: splice out the first conversation with the id;
when it was current, fall back to the first remaining conversation or null;
persist. -/
def deleteConversation (cid : String) (s : StoreState) : StoreState :=
  if (findConv s.conversations cid).isSome then
    let remaining := s.conversations.eraseP (fun c => c.id == cid)
    let cur :=
      if s.currentConversationId = some cid then remaining.head?.map (fun c => c.id)
      else s.currentConversationId
    saveConvs { s with conversations := remaining, currentConversationId := cur }
  else s

/-- `message.content.slice(0, 30) + (length > 30 ? '...' : '')`. -/
def titleFor (content : String) : String :=
  (⟨content.data.take 30⟩ : String) ++ (if 30 < content.data.length then "..." else "")

def updateConversationTitle (cid title : String) (now : Nat) (s : StoreState) :
    StoreState :=
  if (findConv s.conversations cid).isSome then
    saveConvs
      { s with
        conversations := updateFirst (fun c => c.id == cid)
          (fun c => { c with title := title, updatedAt := now }) s.conversations }
  else s

/-- The body of `updateConversationSettings`: `if (settings.model)` is
JavaScript truthiness, so an empty string does not overwrite the model. -/
def applySettings (st : ConversationSettings) (now : Nat) (c : Conversation) :
    Conversation :=
  let c1 :=
    match st.model with
    | some m => if m = "" then c else { c with model := m }
    | none => c
  let c2 :=
    match st.deepThink with
    | some d => { c1 with deepThink := d }
    | none => c1
  let c3 :=
    match st.useSearch with
    | some u => { c2 with useSearch := u }
    | none => c2
  { c3 with updatedAt := now }

def updateConversationSettings (st : ConversationSettings) (now : Nat)
    (s : StoreState) : StoreState :=
  match currentConv s with
  | none => s
  | some cur =>
    saveConvs
      { s with
        conversations := updateFirst (fun c => c.id == cur.id)
          (applySettings st now) s.conversations }

/-- The body of `addMessage` on the found conversation: push the message,
touch `updatedAt`, and set the title from the first user message. -/
def appendMsg (m : Message) (now : Nat) (c : Conversation) : Conversation :=
  let c' := { c with messages := c.messages ++ [m], updatedAt := now }
  if c'.messages.length == 1 && (m.role == Role.user) then
    { c' with title := titleFor m.content }
  else c'

def addMessage (cid : String) (m : Message) (now : Nat) (s : StoreState) :
    StoreState :=
  if (findConv s.conversations cid).isSome then
    saveConvs
      { s with
        conversations := updateFirst (fun c => c.id == cid) (appendMsg m now)
          s.conversations }
  else s

def mkUserMessage (mid content : String) (now : Nat) : Message :=
  { id := mid, role := Role.user, content := content, timestamp := now }

/-- The assistant message created for streaming output:
`content: '', isStreaming: true, displayContent: ''`. -/
def mkAiMessage (mid : String) (now : Nat) : Message :=
  { id := mid, role := Role.assistant, content := "", timestamp := now,
    isStreaming := true, displayContent := some "" }

/-- The synchronous prefix of the store's `sendMessage`: create a
conversation when there is no current one, then append the user message and
the streaming assistant message to the current conversation. -/
def sendMessageBegin (content newConvId userMsgId aiMsgId : String) (now : Nat)
    (s : StoreState) : StoreState :=
  let s1 :=
    match currentConv s with
    | some _ => s
    | none => createNewConversation newConvId none now s
  let tid :=
    match currentConv s1 with
    | some c => c.id
    | none => newConvId
  let s2 := addMessage tid (mkUserMessage userMsgId content now) now s1
  addMessage tid (mkAiMessage aiMsgId now) now s2

/-- The fixed reply the error path writes into the assistant message. -/
def errorReply : String := "抱歉，AI回复时出现了错误。请稍后重试。"

def isStreamingAssistant (m : Message) : Bool :=
  (m.role == Role.assistant) && m.isStreaming

/-- Terminal mutation of a settled message: final content, streaming off,
`delete message.displayContent`. -/
def settleMsg (content : String) (m : Message) : Message :=
  { m with content := content, isStreaming := false, displayContent := none }

/-- The `onChunk` callback of `sendMessage`: looks up the conversation by
the id of the *current* conversation at callback time, then the message by
the captured assistant message id, and appends the chunk to its
`displayContent`. A null current conversation throws (`.value!`) before any
mutation, so it is modelled as a no-op; `+=` on an absent field follows
JavaScript's `undefined + chunk` coercion. Does not persist. -/
def onChunkUpdate (aiMsgId chunk : String) (s : StoreState) : StoreState :=
  match currentConv s with
  | none => s
  | some cur =>
    match cur.messages.find? (fun m => m.id == aiMsgId) with
    | none => s
    | some _ =>
      { s with
        conversations := updateFirst (fun c => c.id == cur.id)
          (fun c =>
            { c with
              messages := updateFirst (fun m => m.id == aiMsgId)
                (fun m =>
                  { m with
                    displayContent :=
                      some ((m.displayContent.getD "undefined") ++ chunk) })
                c.messages })
          s.conversations }

/-- The completion callback of `sendMessage`: in the *current* conversation
at callback time, the message with the captured assistant id gets the final
content, streaming off, `displayContent` removed; persists. -/
def onCompleteSettle (aiMsgId respContent : String) (now : Nat) (s : StoreState) :
    StoreState :=
  match currentConv s with
  | none => s
  | some cur =>
    match cur.messages.find? (fun m => m.id == aiMsgId) with
    | none => s
    | some _ =>
      saveConvs
        { s with
          conversations := updateFirst (fun c => c.id == cur.id)
            (fun c =>
              { c with
                messages := updateFirst (fun m => m.id == aiMsgId)
                  (settleMsg respContent) c.messages
                updatedAt := now })
            s.conversations }

/-- The error callback of `sendMessage` (and the surrounding catch block):
in the *current* conversation at callback time, the first message with
`role === 'assistant' && isStreaming` gets the fixed apology content,
streaming off, `displayContent` removed; persists. -/
def onErrorSettle (now : Nat) (s : StoreState) : StoreState :=
  match currentConv s with
  | none => s
  | some cur =>
    match cur.messages.find? isStreamingAssistant with
    | none => s
    | some _ =>
      saveConvs
        { s with
          conversations := updateFirst (fun c => c.id == cur.id)
            (fun c =>
              { c with
                messages := updateFirst isStreamingAssistant (settleMsg errorReply)
                  c.messages
                updatedAt := now })
            s.conversations }

def clearAllConversations (s : StoreState) : StoreState :=
  saveConvs { s with conversations := [], currentConversationId := none }

def clearCurrentConversation (s : StoreState) : StoreState :=
  { s with currentConversationId := none, storedCurrentId := none }

/-! #### Operation traces over the store

One constructor per exported store operation (plus the callback steps a
`sendMessage` in flight performs). `deleteEmptyConversations` is defined in
the source but neither exported nor called, so it is not an operation of the
store's interface. -/

inductive StoreOp where
  | load
  | create (newId : String) (settings : Option ConversationSettings) (now : Nat)
  | switch (cid : String)
  | delete (cid : String)
  | updateTitle (cid title : String) (now : Nat)
  | updateSettings (st : ConversationSettings) (now : Nat)
  | add (cid : String) (m : Message) (now : Nat)
  | sendBegin (content newConvId userMsgId aiMsgId : String) (now : Nat)
  | chunkArrive (aiMsgId chunk : String)
  | settleComplete (aiMsgId respContent : String) (now : Nat)
  | settleError (now : Nat)
  | clearAll
  | clearCurrent
deriving DecidableEq, Repr

def stepOp : StoreOp → StoreState → StoreState
  | .load => loadConversations
  | .create nid st now => createNewConversation nid st now
  | .switch cid => switchConversation cid
  | .delete cid => deleteConversation cid
  | .updateTitle cid title now => updateConversationTitle cid title now
  | .updateSettings st now => updateConversationSettings st now
  | .add cid m now => addMessage cid m now
  | .sendBegin content nid uid aid now => sendMessageBegin content nid uid aid now
  | .chunkArrive aid chunk => onChunkUpdate aid chunk
  | .settleComplete aid respContent now => onCompleteSettle aid respContent now
  | .settleError now => onErrorSettle now
  | .clearAll => clearAllConversations
  | .clearCurrent => clearCurrentConversation

def runOps (ops : List StoreOp) (s : StoreState) : StoreState :=
  ops.foldl (fun s op => stepOp op s) s

/-- The store's state right after module initialization: it starts empty and
immediately runs `loadConversations()` against whatever the localStorage key
holds. -/
def initState (stored0 : Option (List Conversation)) : StoreState :=
  loadConversations
    { conversations := [], currentConversationId := none,
      storedConversations := stored0, storedCurrentId := none }

def hasConvId (s : StoreState) (cid : String) : Bool :=
  s.conversations.any (fun c => c.id == cid)

/-- `generateId()` produces fresh ids; an operation that creates a
conversation is run with an id not already present. -/
def freshOp (s : StoreState) : StoreOp → Bool
  | .create nid _ _ => !hasConvId s nid
  | .sendBegin _ nid _ _ _ =>
    match currentConv s with
    | some _ => true
    | none => !hasConvId s nid
  | _ => true

def freshRun (s : StoreState) : List StoreOp → Bool
  | [] => true
  | op :: ops => freshOp s op && freshRun (stepOp op s) ops

/-- The position-relevant shape of a conversation: its id and the ids of its
messages in sequence order. -/
def convShape (c : Conversation) : String × List String :=
  (c.id, c.messages.map (fun m => m.id))

def msgIdsIn (cs : List Conversation) (cid : String) : Option (List String) :=
  (findConv cs cid).map (fun c => c.messages.map (fun m => m.id))

/-- The sequence of message ids of the conversation with the given id (its
positions are the list indices). -/
def msgIdsOf (s : StoreState) (cid : String) : Option (List String) :=
  msgIdsIn s.conversations cid

/-- Well-formedness maintained by the store: conversation ids are distinct,
and the persisted array always carries the same conversation/message id
shape as the in-memory list. -/
def Wf (s : StoreState) : Prop :=
  (s.conversations.map (fun c => c.id)).Nodup ∧
  ∀ l, s.storedConversations = some l → l.map convShape = s.conversations.map convShape

/-- The C9 invariant: the current conversation id, when set, names a
conversation present in the list. -/
def CurOk (s : StoreState) : Bool :=
  match s.currentConversationId with
  | none => true
  | some cid => (findConv s.conversations cid).isSome

def Inv (s : StoreState) : Prop := Wf s ∧ CurOk s = true

/-! ### Concrete fixtures used by the counterexample and witness theorems -/

def c3Message : Message :=
  { id := "m1", role := Role.assistant, content := "first", timestamp := 1,
    isStreaming := false, displayContent := none }

def c3Conv : Conversation :=
  { id := "c1", title := "t", messages := [c3Message], model := "deepseek-chat",
    deepThink := false, useSearch := false, createdAt := 0, updatedAt := 1 }

/-- A store whose single conversation holds one already-settled assistant
message. -/
def c3State : StoreState :=
  { conversations := [c3Conv],
    currentConversationId := some "c1",
    storedConversations := none, storedCurrentId := none }

def c6StreamingMsg : Message :=
  { id := "a1", role := Role.assistant, content := "", timestamp := 1,
    isStreaming := true, displayContent := some "" }

def c6ConvA : Conversation :=
  { id := "A", title := "t", messages := [c6StreamingMsg], model := "deepseek-chat",
    deepThink := false, useSearch := false, createdAt := 0, updatedAt := 1 }

def c6ConvB : Conversation :=
  { id := "B", title := "t", messages := [], model := "deepseek-chat",
    deepThink := false, useSearch := false, createdAt := 0, updatedAt := 1 }

/-- A store where the send was admitted on conversation `A` (its assistant
message is still streaming) but the user has since switched to `B`. -/
def c6State : StoreState :=
  { conversations := [c6ConvB, c6ConvA], currentConversationId := some "B",
    storedConversations := none, storedCurrentId := none }

/-- A store whose current conversation `A` holds the in-flight streaming
assistant message. -/
def c6wState : StoreState :=
  { conversations := [c6ConvA], currentConversationId := some "A",
    storedConversations := none, storedCurrentId := none }

def c4msgU : Message :=
  { id := "u", role := Role.user, content := "hi", timestamp := 1 }

def c4msgV : Message :=
  { id := "v", role := Role.assistant, content := "", timestamp := 2 }

def c4ops : List StoreOp := [StoreOp.create "A" none 0, StoreOp.add "A" c4msgU 1]

def c4op : StoreOp := StoreOp.add "A" c4msgV 2

def c9ops : List StoreOp :=
  [StoreOp.create "A" none 0, StoreOp.create "B" none 1, StoreOp.switch "A"]

end HierChat

namespace HierChat

/-! ## Theorems -/

/-! ### `updateFirst` -/

theorem updateFirst_of_find?_eq_none {α : Type} (p : α → Bool) (f : α → α)
    (l : List α) (h : l.find? p = none) : updateFirst p f l = l := by
  induction l with
  | nil => rfl
  | cons x xs ih =>
    rw [List.find?_cons] at h
    cases hp : p x with
    | true => simp [hp] at h
    | false =>
      simp only [hp] at h
      simp [updateFirst, hp, ih h]

/-- The first element satisfying `p` is rewritten by `f`; everything else is
untouched. The decomposition form used to reason about settle operations. -/
theorem updateFirst_spec {α : Type} (p : α → Bool) (f : α → α) (l : List α) :
    (l.find? p = none ∧ updateFirst p f l = l) ∨
    (∃ l₁ x l₂, l = l₁ ++ x :: l₂ ∧ (∀ y ∈ l₁, p y = false) ∧ p x = true ∧
      l.find? p = some x ∧ updateFirst p f l = l₁ ++ f x :: l₂) := by
  induction l with
  | nil => exact Or.inl ⟨rfl, rfl⟩
  | cons a l ih =>
    cases hp : p a with
    | true =>
      refine Or.inr ⟨[], a, l, rfl, by simp, hp, ?_, ?_⟩
      · simp [List.find?_cons, hp]
      · simp [updateFirst, hp]
    | false =>
      rcases ih with ⟨hf, hu⟩ | ⟨l₁, x, l₂, hl, h₁, hx, hf, hu⟩
      · refine Or.inl ⟨?_, ?_⟩
        · simp [List.find?_cons, hp, hf]
        · simp [updateFirst, hp, hu]
      · refine Or.inr ⟨a :: l₁, x, l₂, by simp [hl], ?_, hx, ?_, ?_⟩
        · intro y hy
          rcases List.mem_cons.mp hy with rfl | hy
          · exact hp
          · exact h₁ y hy
        · simp [List.find?_cons, hp, hf]
        · simp [updateFirst, hp, hu]

theorem map_updateFirst {α β : Type} (p : α → Bool) (f : α → α) (g : α → β)
    (l : List α) (h : ∀ x, p x = true → g (f x) = g x) :
    (updateFirst p f l).map g = l.map g := by
  induction l with
  | nil => rfl
  | cons x xs ih =>
    cases hp : p x with
    | true => simp [updateFirst, hp, h x hp]
    | false => simp [updateFirst, hp, ih]

/-! ### The SSE reader -/

/-- Every terminal form of the reader: the events are the fragments of the
processed lines in order, followed by one completion iff a sentinel occurs,
whose content is the accumulator extended by exactly those fragments. -/
theorem processLines_eq (ls : List String) (acc : String) :
    processLines ls acc = (fragments ls).map SSEEvent.chunk ++
      (if hasSentinel ls then [SSEEvent.complete (acc ++ concatAll (fragments ls))]
       else []) := by
  induction ls generalizing acc with
  | nil => simp [processLines, fragments, hasSentinel, concatAll]
  | cons l ls ih =>
    cases hd : isDataLine l with
    | false =>
      have hsent : isSentinelLine l = false := by simp [isSentinelLine, hd]
      have hfrag : isFragmentLine l = false := by simp [isFragmentLine, hd]
      simp [processLines, hd, fragments, hasSentinel, hsent, hfrag,
        List.takeWhile_cons, ih]
    | true =>
      cases hs : payloadOf l == doneSentinel with
      | true =>
        have hsent : isSentinelLine l = true := by simp [isSentinelLine, hd, hs]
        simp [processLines, hd, hs, fragments, hasSentinel, hsent,
          List.takeWhile_cons, concatAll, String.append_empty]
      | false =>
        have hsent : isSentinelLine l = false := by simp [isSentinelLine, hd, hs]
        have hfrag : isFragmentLine l = true := by simp [isFragmentLine, hd, hs]
        simp only [processLines, hd, hs, if_true, if_false, Bool.false_eq_true,
          fragments, hasSentinel, List.takeWhile_cons, hsent, Bool.not_false,
          if_pos, List.filter_cons, hfrag, List.map_cons, List.any_cons,
          Bool.false_or, ih, concatAll, List.foldr_cons]
        rw [String.append_assoc]
        simp [fragments, hasSentinel, concatAll]

theorem processLines_eq_specEvents (ls : List String) :
    processLines ls "" = specEvents ls := by
  rw [processLines_eq, specEvents]
  cases h : hasSentinel ls <;> simp [String.empty_append]

/-- Processing stops at the first sentinel; before it, the accumulator grows
by exactly the fragments already forwarded. -/
theorem processLines_append (xs ys : List String) (acc : String) :
    processLines (xs ++ ys) acc =
      if hasSentinel xs then processLines xs acc
      else processLines xs acc ++ processLines ys (acc ++ concatAll (fragments xs)) := by
  induction xs generalizing acc with
  | nil =>
    simp [processLines, hasSentinel, fragments, concatAll, String.append_empty]
  | cons l xs ih =>
    cases hd : isDataLine l with
    | false =>
      have hsent : isSentinelLine l = false := by simp [isSentinelLine, hd]
      have hfrag : isFragmentLine l = false := by simp [isFragmentLine, hd]
      simp [processLines, hd, hasSentinel, hsent, fragments, List.takeWhile_cons,
        hfrag, ih]
    | true =>
      cases hs : payloadOf l == doneSentinel with
      | true =>
        have hsent : isSentinelLine l = true := by simp [isSentinelLine, hd, hs]
        simp [processLines, hd, hs, hasSentinel, hsent]
      | false =>
        have hsent : isSentinelLine l = false := by simp [isSentinelLine, hd, hs]
        have hfrag : isFragmentLine l = true := by simp [isFragmentLine, hd, hs]
        have hsl : hasSentinel (l :: xs) = hasSentinel xs := by
          simp [hasSentinel, hsent]
        have hfl : fragments (l :: xs) = payloadOf l :: fragments xs := by
          simp [fragments, List.takeWhile_cons, hsent, hfrag]
        have hpl : ∀ a, processLines (l :: xs) a
            = SSEEvent.chunk (payloadOf l) :: processLines xs (a ++ payloadOf l) := by
          intro a
          simp [processLines, hd, hs]
        simp only [List.cons_append, processLines, hd, if_true, hs,
          Bool.false_eq_true, if_false, ih, hsl, hfl, hpl, List.append_eq]
        cases hys : hasSentinel xs with
        | true => simp
        | false => simp [concatAll, String.append_assoc]

theorem mergeLines_ne_nil (a bs : List String) (h : bs ≠ []) :
    mergeLines a bs ≠ [] := by
  induction a with
  | nil => exact h
  | cons x xs ih =>
    cases xs with
    | nil => cases bs with
      | nil => simp at h
      | cons b bs => simp [mergeLines]
    | cons y ys => simp [mergeLines]

theorem streamLines_ne_nil (chunks : List (List String)) :
    streamLines chunks ≠ [] := by
  induction chunks with
  | nil => simp [streamLines]
  | cons c cs ih => exact mergeLines_ne_nil c _ ih

/-- Merging a chunk that ends on a line boundary (its last split line is
empty) prepends its complete lines unchanged. -/
theorem mergeLines_append_empty (cs bs : List String) (h : bs ≠ []) :
    mergeLines (cs ++ [""]) bs = cs ++ bs := by
  induction cs with
  | nil =>
    cases bs with
    | nil => simp at h
    | cons b bs' => simp [mergeLines, String.empty_append]
  | cons x xs ih =>
    cases hxs : xs ++ [""] with
    | nil => simp at hxs
    | cons y ys =>
      simp only [List.cons_append, hxs, mergeLines]
      rw [← hxs, ih]

/-- When every read chunk ends on a line boundary, processing each chunk's
lines separately (as the client does) is equivalent to processing the whole
stream's lines. -/
theorem processLines_flatten (chunks : List (List String))
    (h : ∀ c ∈ chunks, c.getLast? = some "") (acc : String) :
    processLines chunks.flatten acc = processLines (streamLines chunks) acc := by
  induction chunks generalizing acc with
  | nil => simp [streamLines, processLines, isDataLine, strStartsWith, dataPrefix]
  | cons c cs ih =>
    obtain ⟨c', hc'⟩ := List.getLast?_eq_some_iff.mp (h c (List.mem_cons_self c cs))
    have hs : streamLines (c :: cs) = c' ++ streamLines cs := by
      rw [streamLines, List.foldr_cons, ← streamLines, hc']
      exact mergeLines_append_empty c' _ (streamLines_ne_nil cs)
    have hempty : ∀ a, processLines ("" :: cs.flatten) a = processLines cs.flatten a := by
      intro a
      simp [processLines, isDataLine, strStartsWith, dataPrefix]
    rw [hs, List.flatten_cons, hc', List.append_assoc, List.singleton_append,
      processLines_append, processLines_append]
    cases hsent : hasSentinel c' with
    | true => simp [hsent]
    | false =>
      simp only [hsent, if_false, Bool.false_eq_true]
      rw [hempty, ih (fun x hx => h x (List.mem_cons_of_mem _ hx))]

/-! ### Conversation store: id-indexed lookup lemmas -/

theorem beq_self_true (a : String) : (a == a) = true := by simp

theorem find?_updateFirst_ne {α : Type} (idOf : α → String) (f : α → α)
    (hid : ∀ x, idOf (f x) = idOf x) (a b : String) (hne : a ≠ b) (l : List α) :
    (updateFirst (fun x => idOf x == b) f l).find? (fun x => idOf x == a)
      = l.find? (fun x => idOf x == a) := by
  induction l with
  | nil => rfl
  | cons x xs ih =>
    cases hb : idOf x == b with
    | true =>
      have hxb : idOf x = b := by simpa using hb
      have hxa : (idOf x == a) = false := by simp [hxb]; exact fun h => hne h.symm
      have hfa : (idOf (f x) == a) = false := by rw [hid]; exact hxa
      simp [updateFirst, hb, List.find?_cons, hfa, hxa]
    | false =>
      cases ha : idOf x == a with
      | true => simp [updateFirst, hb, List.find?_cons, ha]
      | false => simp [updateFirst, hb, List.find?_cons, ha, ih]

theorem find?_updateFirst_eq {α : Type} (idOf : α → String) (f : α → α)
    (hid : ∀ x, idOf (f x) = idOf x) (a : String) (l : List α) :
    (updateFirst (fun x => idOf x == a) f l).find? (fun x => idOf x == a)
      = (l.find? (fun x => idOf x == a)).map f := by
  induction l with
  | nil => rfl
  | cons x xs ih =>
    cases ha : idOf x == a with
    | true =>
      have hfa : (idOf (f x) == a) = true := by rw [hid]; exact ha
      simp [updateFirst, ha, List.find?_cons, hfa]
    | false => simp [updateFirst, ha, List.find?_cons, ih]

theorem find?_eraseP_ne {α : Type} (idOf : α → String) (a b : String)
    (hne : a ≠ b) (l : List α) :
    (l.eraseP (fun x => idOf x == b)).find? (fun x => idOf x == a)
      = l.find? (fun x => idOf x == a) := by
  induction l with
  | nil => rfl
  | cons x xs ih =>
    cases hb : idOf x == b with
    | true =>
      have hxb : idOf x = b := by simpa using hb
      have hxa : (idOf x == a) = false := by simp [hxb]; exact fun h => hne h.symm
      simp [List.eraseP_cons, hb, List.find?_cons, hxa]
    | false =>
      cases ha : idOf x == a with
      | true => simp [List.eraseP_cons, hb, List.find?_cons, ha]
      | false => simp [List.eraseP_cons, hb, List.find?_cons, ha, ih]

theorem find?_eraseP_self {α : Type} (idOf : α → String) (a : String) (l : List α)
    (hnd : (l.map idOf).Nodup) :
    (l.eraseP (fun x => idOf x == a)).find? (fun x => idOf x == a) = none := by
  induction l with
  | nil => rfl
  | cons x xs ih =>
    simp only [List.map_cons, List.nodup_cons] at hnd
    cases ha : idOf x == a with
    | true =>
      have hxa : idOf x = a := by simpa using ha
      rw [List.find?_eq_none]
      intro y hy
      have : idOf y ≠ idOf x := by
        intro hcontra
        exact hnd.1 (hcontra ▸ List.mem_map_of_mem idOf (by
          simpa [List.eraseP_cons, ha] using hy))
      simp only [List.eraseP_cons, ha, cond_true] at hy
      simp [beq_eq_false_iff_ne]
      intro hya
      exact this (by rw [hya, hxa])
    | false =>
      simp [List.eraseP_cons, ha, List.find?_cons, ih hnd.2]

/-! ### Conversation store: shape lemmas -/

theorem msgIdsIn_congr_shape (cs₁ cs₂ : List Conversation)
    (h : cs₁.map convShape = cs₂.map convShape) (cid : String) :
    msgIdsIn cs₁ cid = msgIdsIn cs₂ cid := by
  induction cs₁ generalizing cs₂ with
  | nil =>
    cases cs₂ with
    | nil => rfl
    | cons d ds => simp at h
  | cons c cs ih =>
    cases cs₂ with
    | nil => simp at h
    | cons d ds =>
      simp only [List.map_cons, List.cons.injEq] at h
      obtain ⟨hcd, htail⟩ := h
      have hid : c.id = d.id := congrArg Prod.fst hcd
      have hmsg : c.messages.map (fun m => m.id) = d.messages.map (fun m => m.id) :=
        congrArg Prod.snd hcd
      unfold msgIdsIn findConv
      rw [List.find?_cons, List.find?_cons, ← hid]
      cases hc : c.id == cid with
      | true => simpa using hmsg
      | false => exact ih ds htail

theorem ids_eq_of_shape_eq (cs₁ cs₂ : List Conversation)
    (h : cs₁.map convShape = cs₂.map convShape) :
    cs₁.map (fun c => c.id) = cs₂.map (fun c => c.id) := by
  have h2 := congrArg (List.map Prod.fst) h
  simpa [List.map_map, Function.comp, convShape] using h2

theorem findConv_isSome_congr_ids (cs₁ cs₂ : List Conversation)
    (h : cs₁.map (fun c => c.id) = cs₂.map (fun c => c.id)) (cid : String) :
    (findConv cs₁ cid).isSome = (findConv cs₂ cid).isSome := by
  induction cs₁ generalizing cs₂ with
  | nil =>
    cases cs₂ with
    | nil => rfl
    | cons d ds => simp at h
  | cons c cs ih =>
    cases cs₂ with
    | nil => simp at h
    | cons d ds =>
      simp only [List.map_cons, List.cons.injEq] at h
      unfold findConv
      rw [List.find?_cons, List.find?_cons, ← h.1]
      cases hc : c.id == cid with
      | true => rfl
      | false => exact ih ds h.2

theorem msgIdsIn_isSome (cs : List Conversation) (cid : String) :
    (msgIdsIn cs cid).isSome = (findConv cs cid).isSome := by
  unfold msgIdsIn
  cases findConv cs cid <;> rfl

/-- `updateFirst` with an id-preserving rewrite leaves the id list alone. -/
theorem ids_updateFirst (tid : String) (f : Conversation → Conversation)
    (hid : ∀ c, (f c).id = c.id) (cs : List Conversation) :
    (updateFirst (fun c => c.id == tid) f cs).map (fun c => c.id)
      = cs.map (fun c => c.id) :=
  map_updateFirst _ f _ cs (fun c _ => hid c)

theorem shape_updateFirst (p : Conversation → Bool) (f : Conversation → Conversation)
    (hsh : ∀ c, convShape (f c) = convShape c) (cs : List Conversation) :
    (updateFirst p f cs).map convShape = cs.map convShape :=
  map_updateFirst p f convShape cs (fun c _ => hsh c)

theorem msgIdsIn_updateFirst_ne (tid : String) (f : Conversation → Conversation)
    (hid : ∀ c, (f c).id = c.id) (cid : String) (hne : cid ≠ tid)
    (cs : List Conversation) :
    msgIdsIn (updateFirst (fun c => c.id == tid) f cs) cid = msgIdsIn cs cid := by
  unfold msgIdsIn findConv
  rw [find?_updateFirst_ne (fun c => c.id) f hid cid tid hne cs]

theorem msgIdsIn_updateFirst_eq (cid : String) (f : Conversation → Conversation)
    (hid : ∀ c, (f c).id = c.id) (cs : List Conversation) :
    msgIdsIn (updateFirst (fun c => c.id == cid) f cs) cid
      = (findConv cs cid).map (fun c => (f c).messages.map (fun m => m.id)) := by
  unfold msgIdsIn findConv
  rw [find?_updateFirst_eq (fun c => c.id) f hid cid cs]
  cases (cs.find? fun c => c.id == cid) <;> rfl

theorem msgIdsIn_updateFirst_shape (tid : String) (f : Conversation → Conversation)
    (hsh : ∀ c, convShape (f c) = convShape c) (cs : List Conversation)
    (cid : String) :
    msgIdsIn (updateFirst (fun c => c.id == tid) f cs) cid = msgIdsIn cs cid :=
  msgIdsIn_congr_shape _ _ (shape_updateFirst _ f hsh cs) cid

theorem msgIdsIn_eraseP_ne (did : String) (cid : String) (hne : cid ≠ did)
    (cs : List Conversation) :
    msgIdsIn (cs.eraseP (fun c => c.id == did)) cid = msgIdsIn cs cid := by
  unfold msgIdsIn findConv
  rw [find?_eraseP_ne (fun c => c.id) cid did hne cs]

theorem msgIdsIn_eraseP_self (cid : String) (cs : List Conversation)
    (hnd : (cs.map (fun c => c.id)).Nodup) :
    msgIdsIn (cs.eraseP (fun c => c.id == cid)) cid = none := by
  unfold msgIdsIn findConv
  rw [find?_eraseP_self (fun c => c.id) cid cs hnd]
  rfl

/-! ### Conversation store: facts about the individual mutators -/

theorem appendMsg_id (m : Message) (now : Nat) (c : Conversation) :
    (appendMsg m now c).id = c.id := by
  unfold appendMsg
  dsimp only
  split <;> rfl

theorem appendMsg_messages (m : Message) (now : Nat) (c : Conversation) :
    (appendMsg m now c).messages = c.messages ++ [m] := by
  unfold appendMsg
  dsimp only
  split <;> rfl

theorem applySettings_shape (st : ConversationSettings) (now : Nat)
    (c : Conversation) : convShape (applySettings st now c) = convShape c := by
  unfold applySettings
  cases st.model <;> cases st.deepThink <;> cases st.useSearch <;> dsimp only <;>
    (try split) <;> simp [convShape]

theorem titleUpdate_shape (title : String) (now : Nat) (c : Conversation) :
    convShape { c with title := title, updatedAt := now } = convShape c := rfl

theorem settleInner_shape (aid respContent : String) (now : Nat) (c : Conversation) :
    convShape
      { c with
        messages := updateFirst (fun m => m.id == aid) (settleMsg respContent)
          c.messages
        updatedAt := now } = convShape c := by
  unfold convShape
  simp only [Prod.mk.injEq, true_and]
  exact map_updateFirst _ _ _ c.messages (fun m _ => rfl)

theorem settleErrInner_shape (now : Nat) (c : Conversation) :
    convShape
      { c with
        messages := updateFirst isStreamingAssistant (settleMsg errorReply)
          c.messages
        updatedAt := now } = convShape c := by
  unfold convShape
  simp only [Prod.mk.injEq, true_and]
  exact map_updateFirst _ _ _ c.messages (fun m _ => rfl)

theorem chunkInner_shape (aid chunk : String) (c : Conversation) :
    convShape
      { c with
        messages := updateFirst (fun m => m.id == aid)
          (fun m =>
            { m with
              displayContent := some ((m.displayContent.getD "undefined") ++ chunk) })
          c.messages } = convShape c := by
  unfold convShape
  simp only [Prod.mk.injEq, true_and]
  exact map_updateFirst _ _ _ c.messages (fun m _ => rfl)

theorem wf_saveConvs (t : StoreState)
    (hnd : (t.conversations.map (fun c => c.id)).Nodup) : Wf (saveConvs t) := by
  constructor
  · simpa [saveConvs] using hnd
  · intro l hl
    simp only [saveConvs] at hl ⊢
    cases hl
    rfl

theorem hasConvId_false_findConv (s : StoreState) (nid : String)
    (h : hasConvId s nid = false) : findConv s.conversations nid = none := by
  rw [findConv, List.find?_eq_none]
  intro c hc
  simp only [hasConvId, List.any_eq_false] at h
  simpa using h c hc

/-! ### Conversation store: per-operation lemmas -/

theorem addMessage_ids (tid : String) (m : Message) (now : Nat) (s : StoreState) :
    (addMessage tid m now s).conversations.map (fun c => c.id)
      = s.conversations.map (fun c => c.id) := by
  unfold addMessage
  cases hg : (findConv s.conversations tid).isSome with
  | true => simp [saveConvs, ids_updateFirst tid _ (appendMsg_id m now)]
  | false => simp

theorem addMessage_currentId (tid : String) (m : Message) (now : Nat)
    (s : StoreState) :
    (addMessage tid m now s).currentConversationId = s.currentConversationId := by
  unfold addMessage
  cases hg : (findConv s.conversations tid).isSome with
  | true => rfl
  | false => rfl

theorem addMessage_msgIds (tid : String) (m : Message) (now : Nat) (s : StoreState)
    (cid : String) (l : List String) (h1 : msgIdsOf s cid = some l) :
    ∃ l', msgIdsOf (addMessage tid m now s) cid = some l' ∧ l <+: l' := by
  unfold addMessage
  cases hg : (findConv s.conversations tid).isSome with
  | false => exact ⟨l, by simpa using h1, List.prefix_refl l⟩
  | true =>
    simp only [if_true]
    by_cases hc : cid = tid
    · subst hc
      rw [msgIdsOf, msgIdsIn] at h1
      obtain ⟨c, hfc, hl⟩ := Option.map_eq_some'.mp h1
      refine ⟨l ++ [m.id], ?_, List.prefix_append l [m.id]⟩
      have := msgIdsIn_updateFirst_eq cid (appendMsg m now) (appendMsg_id m now)
        s.conversations
      simp only [msgIdsOf, saveConvs, this, hfc, Option.map_some',
        appendMsg_messages, List.map_append, hl]
      simp
    · refine ⟨l, ?_, List.prefix_refl l⟩
      have := msgIdsIn_updateFirst_ne tid (appendMsg m now) (appendMsg_id m now)
        cid hc s.conversations
      simpa [msgIdsOf, saveConvs, this] using h1

theorem addMessage_wf (tid : String) (m : Message) (now : Nat) (s : StoreState)
    (hWf : Wf s) : Wf (addMessage tid m now s) := by
  unfold addMessage
  cases hg : (findConv s.conversations tid).isSome with
  | false => simpa using hWf
  | true =>
    simp only [if_true]
    exact wf_saveConvs _ (by
      simpa [ids_updateFirst tid _ (appendMsg_id m now)] using hWf.1)

theorem addMessage_curOk (tid : String) (m : Message) (now : Nat) (s : StoreState)
    (hCur : CurOk s = true) : CurOk (addMessage tid m now s) = true := by
  unfold CurOk at hCur ⊢
  rw [addMessage_currentId]
  cases hcid : s.currentConversationId with
  | none => rfl
  | some cid =>
    rw [hcid] at hCur
    dsimp only at hCur ⊢
    have hids := addMessage_ids tid m now s
    rw [findConv_isSome_congr_ids _ _ hids cid]
    exact hCur

theorem create_msgIds (nid : String) (st : Option ConversationSettings) (now : Nat)
    (s : StoreState) (cid : String) (l : List String)
    (hfresh : hasConvId s nid = false) (h1 : msgIdsOf s cid = some l) :
    msgIdsOf (createNewConversation nid st now s) cid = some l := by
  unfold createNewConversation
  by_cases hc : cid = nid
  · subst hc
    rw [msgIdsOf, msgIdsIn, hasConvId_false_findConv s cid hfresh] at h1
    simp at h1
  · have : ((mkConversation nid st now).id == cid) = false := by
      simp [mkConversation]
      exact fun h => hc h.symm
    simpa [msgIdsOf, saveConvs, msgIdsIn, findConv, List.find?_cons, this] using h1

theorem create_wf (nid : String) (st : Option ConversationSettings) (now : Nat)
    (s : StoreState) (hWf : Wf s) (hfresh : hasConvId s nid = false) :
    Wf (createNewConversation nid st now s) := by
  unfold createNewConversation
  refine wf_saveConvs _ ?_
  simp only [List.map_cons, List.nodup_cons]
  refine ⟨?_, hWf.1⟩
  intro hmem
  rw [List.mem_map] at hmem
  obtain ⟨c, hc, hcid⟩ := hmem
  simp only [hasConvId, List.any_eq_false] at hfresh
  have := hfresh c hc
  rw [mkConversation] at hcid
  simp at hcid
  simp [hcid] at this

theorem create_curOk (nid : String) (st : Option ConversationSettings) (now : Nat)
    (s : StoreState) : CurOk (createNewConversation nid st now s) = true := by
  simp [CurOk, createNewConversation, saveConvs, findConv, List.find?_cons,
    mkConversation]

theorem create_currentConv (nid : String) (st : Option ConversationSettings)
    (now : Nat) (s : StoreState) :
    currentConv (createNewConversation nid st now s)
      = some (mkConversation nid st now) := by
  simp [currentConv, createNewConversation, saveConvs, findConv, List.find?_cons,
    mkConversation]

theorem load_msgIds (s : StoreState) (hWf : Wf s) (cid : String) :
    msgIdsOf (loadConversations s) cid = msgIdsOf s cid := by
  unfold loadConversations
  cases hst : s.storedConversations with
  | none => rfl
  | some saved =>
    simp only [msgIdsOf]
    exact msgIdsIn_congr_shape saved s.conversations (hWf.2 saved hst) cid

theorem load_wf (s : StoreState) (hWf : Wf s) : Wf (loadConversations s) := by
  unfold loadConversations
  cases hst : s.storedConversations with
  | none => exact hWf
  | some saved =>
    have hshape := hWf.2 saved hst
    constructor
    · simpa [ids_eq_of_shape_eq saved s.conversations hshape] using hWf.1
    · intro l hl
      simp only [hst] at hl
      cases hl
      rfl

theorem load_curOk (s : StoreState) (hWf : Wf s) (hCur : CurOk s = true) :
    CurOk (loadConversations s) = true := by
  unfold loadConversations
  cases hst : s.storedConversations with
  | none => exact hCur
  | some saved =>
    have hids := ids_eq_of_shape_eq saved s.conversations (hWf.2 saved hst)
    cases hcur : s.currentConversationId with
    | some cid =>
      unfold CurOk at hCur ⊢
      simp only [hcur] at hCur ⊢
      rw [findConv_isSome_congr_ids saved s.conversations hids cid]
      exact hCur
    | none =>
      cases saved with
      | nil => simp [CurOk]
      | cons c rest =>
        simp [CurOk, findConv, List.find?_cons]

/-! ### Conversation store: every operation preserves well-formedness -/

theorem sendBegin_wf (content nid uid aid : String) (now : Nat) (s : StoreState)
    (hWf : Wf s) (hfresh : freshOp s (StoreOp.sendBegin content nid uid aid now) = true) :
    Wf (sendMessageBegin content nid uid aid now s) := by
  unfold sendMessageBegin
  cases hcc : currentConv s with
  | some cur =>
    exact addMessage_wf _ _ now _ (addMessage_wf _ _ now s hWf)
  | none =>
    have hf : hasConvId s nid = false := by
      simp only [freshOp, hcc] at hfresh
      simpa using hfresh
    exact addMessage_wf _ _ now _ (addMessage_wf _ _ now _ (create_wf nid none now s hWf hf))

theorem stepOp_wf (op : StoreOp) (s : StoreState) (hWf : Wf s)
    (hfresh : freshOp s op = true) : Wf (stepOp op s) := by
  cases op with
  | load => exact load_wf s hWf
  | create nid st now =>
    exact create_wf nid st now s hWf (by simpa [freshOp] using hfresh)
  | switch cid =>
    dsimp only [stepOp]
    unfold switchConversation
    cases hg : (findConv s.conversations cid).isSome with
    | true => exact hWf
    | false => exact hWf
  | delete cid =>
    dsimp only [stepOp]
    unfold deleteConversation
    cases hg : (findConv s.conversations cid).isSome with
    | false => simpa using hWf
    | true =>
      simp only [if_true]
      refine wf_saveConvs _ ?_
      exact hWf.1.sublist ((s.conversations.eraseP_sublist).map (fun c => c.id))
  | updateTitle cid title now =>
    dsimp only [stepOp]
    unfold updateConversationTitle
    cases hg : (findConv s.conversations cid).isSome with
    | false => simpa using hWf
    | true =>
      simp only [if_true]
      refine wf_saveConvs _ ?_
      dsimp only
      rw [ids_updateFirst cid
        (fun c => { c with title := title, updatedAt := now }) (fun c => rfl)]
      exact hWf.1
  | updateSettings st now =>
    dsimp only [stepOp]
    unfold updateConversationSettings
    cases hcc : currentConv s with
    | none => exact hWf
    | some cur =>
      dsimp only
      refine wf_saveConvs _ ?_
      have hids := ids_eq_of_shape_eq _ _
        (shape_updateFirst (fun c => c.id == cur.id) _ (applySettings_shape st now)
          s.conversations)
      rw [hids]
      exact hWf.1
  | add cid m now => exact addMessage_wf cid m now s hWf
  | sendBegin content nid uid aid now =>
    exact sendBegin_wf content nid uid aid now s hWf hfresh
  | chunkArrive aid chunk =>
    dsimp only [stepOp]
    unfold onChunkUpdate
    cases hcc : currentConv s with
    | none => exact hWf
    | some cur =>
      dsimp only
      cases hfm : cur.messages.find? (fun m => m.id == aid) with
      | none => exact hWf
      | some m0 =>
        have hshape := shape_updateFirst (fun c => c.id == cur.id) _
          (chunkInner_shape aid chunk) s.conversations
        constructor
        · rw [ids_eq_of_shape_eq _ _ hshape]
          exact hWf.1
        · intro l hl
          rw [hshape]
          exact hWf.2 l hl
  | settleComplete aid respContent now =>
    dsimp only [stepOp]
    unfold onCompleteSettle
    cases hcc : currentConv s with
    | none => exact hWf
    | some cur =>
      dsimp only
      cases hfm : cur.messages.find? (fun m => m.id == aid) with
      | none => exact hWf
      | some m0 =>
        refine wf_saveConvs _ ?_
        have hshape := shape_updateFirst (fun c => c.id == cur.id) _
          (settleInner_shape aid respContent now) s.conversations
        rw [ids_eq_of_shape_eq _ _ hshape]
        exact hWf.1
  | settleError now =>
    dsimp only [stepOp]
    unfold onErrorSettle
    cases hcc : currentConv s with
    | none => exact hWf
    | some cur =>
      dsimp only
      cases hfm : cur.messages.find? isStreamingAssistant with
      | none => exact hWf
      | some m0 =>
        refine wf_saveConvs _ ?_
        have hshape := shape_updateFirst (fun c => c.id == cur.id) _
          (settleErrInner_shape now) s.conversations
        rw [ids_eq_of_shape_eq _ _ hshape]
        exact hWf.1
  | clearAll =>
    exact wf_saveConvs _ (by simp)
  | clearCurrent => exact hWf

/-! ### Conversation store: every operation preserves the current-id invariant -/

theorem curOk_mk (cs : List Conversation) (cur : Option String)
    (st : Option (List Conversation)) (sc : Option String)
    (h : ∀ cid, cur = some cid → (findConv cs cid).isSome = true) :
    CurOk ⟨cs, cur, st, sc⟩ = true := by
  unfold CurOk
  cases cur with
  | none => rfl
  | some cid => exact h cid rfl

theorem curOk_elim (s : StoreState) (hCur : CurOk s = true) (cid : String)
    (h : s.currentConversationId = some cid) :
    (findConv s.conversations cid).isSome = true := by
  unfold CurOk at hCur
  rw [h] at hCur
  exact hCur

theorem sendBegin_curOk (content nid uid aid : String) (now : Nat) (s : StoreState)
    (hCur : CurOk s = true) :
    CurOk (sendMessageBegin content nid uid aid now s) = true := by
  unfold sendMessageBegin
  cases hcc : currentConv s with
  | some cur => exact addMessage_curOk _ _ now _ (addMessage_curOk _ _ now s hCur)
  | none =>
    exact addMessage_curOk _ _ now _
      (addMessage_curOk _ _ now _ (create_curOk nid none now s))

theorem stepOp_curOk (op : StoreOp) (s : StoreState) (hWf : Wf s)
    (hCur : CurOk s = true) : CurOk (stepOp op s) = true := by
  cases op with
  | load => exact load_curOk s hWf hCur
  | create nid st now => exact create_curOk nid st now s
  | switch cid =>
    dsimp only [stepOp]
    unfold switchConversation
    cases hg : (findConv s.conversations cid).isSome with
    | false => simpa using hCur
    | true =>
      simp only [if_true]
      refine curOk_mk _ _ _ _ ?_
      intro cid' hc
      cases hc
      exact hg
  | delete cid =>
    dsimp only [stepOp]
    unfold deleteConversation
    cases hg : (findConv s.conversations cid).isSome with
    | false => simpa using hCur
    | true =>
      simp only [if_true, saveConvs]
      refine curOk_mk _ _ _ _ ?_
      intro cid' hc
      by_cases hcd : s.currentConversationId = some cid
      · rw [if_pos hcd] at hc
        cases hrem : (s.conversations.eraseP (fun c => c.id == cid)) with
        | nil => rw [hrem] at hc; simp at hc
        | cons h t =>
          rw [hrem] at hc
          simp only [List.head?_cons, Option.map_some'] at hc
          cases hc
          simp [findConv, List.find?_cons]
      · rw [if_neg hcd] at hc
        have hne : cid' ≠ cid := by
          intro hcontra
          exact hcd (hcontra ▸ hc)
        unfold findConv
        rw [find?_eraseP_ne (fun c : Conversation => c.id) cid' cid hne
          s.conversations]
        exact curOk_elim s hCur cid' hc
  | updateTitle cid title now =>
    dsimp only [stepOp]
    unfold updateConversationTitle
    cases hg : (findConv s.conversations cid).isSome with
    | false => simpa using hCur
    | true =>
      simp only [if_true, saveConvs]
      refine curOk_mk _ _ _ _ ?_
      intro cid' hc
      rw [findConv_isSome_congr_ids _ _ (ids_updateFirst cid
        (fun c => { c with title := title, updatedAt := now }) (fun c => rfl)
        s.conversations) cid']
      exact curOk_elim s hCur cid' hc
  | updateSettings st now =>
    dsimp only [stepOp]
    unfold updateConversationSettings
    cases hcc : currentConv s with
    | none => exact hCur
    | some cur =>
      dsimp only [saveConvs]
      refine curOk_mk _ _ _ _ ?_
      intro cid' hc
      rw [findConv_isSome_congr_ids _ _ (ids_eq_of_shape_eq _ _
        (shape_updateFirst (fun c => c.id == cur.id) _ (applySettings_shape st now)
          s.conversations)) cid']
      exact curOk_elim s hCur cid' hc
  | add cid m now => exact addMessage_curOk cid m now s hCur
  | sendBegin content nid uid aid now =>
    exact sendBegin_curOk content nid uid aid now s hCur
  | chunkArrive aid chunk =>
    dsimp only [stepOp]
    unfold onChunkUpdate
    cases hcc : currentConv s with
    | none => exact hCur
    | some cur =>
      dsimp only
      cases hfm : cur.messages.find? (fun m => m.id == aid) with
      | none => exact hCur
      | some m0 =>
        refine curOk_mk _ _ _ _ ?_
        intro cid' hc
        rw [findConv_isSome_congr_ids _ _ (ids_eq_of_shape_eq _ _
          (shape_updateFirst (fun c => c.id == cur.id) _ (chunkInner_shape aid chunk)
            s.conversations)) cid']
        exact curOk_elim s hCur cid' hc
  | settleComplete aid respContent now =>
    dsimp only [stepOp]
    unfold onCompleteSettle
    cases hcc : currentConv s with
    | none => exact hCur
    | some cur =>
      dsimp only
      cases hfm : cur.messages.find? (fun m => m.id == aid) with
      | none => exact hCur
      | some m0 =>
        dsimp only [saveConvs]
        refine curOk_mk _ _ _ _ ?_
        intro cid' hc
        rw [findConv_isSome_congr_ids _ _ (ids_eq_of_shape_eq _ _
          (shape_updateFirst (fun c => c.id == cur.id) _
            (settleInner_shape aid respContent now) s.conversations)) cid']
        exact curOk_elim s hCur cid' hc
  | settleError now =>
    dsimp only [stepOp]
    unfold onErrorSettle
    cases hcc : currentConv s with
    | none => exact hCur
    | some cur =>
      dsimp only
      cases hfm : cur.messages.find? isStreamingAssistant with
      | none => exact hCur
      | some m0 =>
        dsimp only [saveConvs]
        refine curOk_mk _ _ _ _ ?_
        intro cid' hc
        rw [findConv_isSome_congr_ids _ _ (ids_eq_of_shape_eq _ _
          (shape_updateFirst (fun c => c.id == cur.id) _ (settleErrInner_shape now)
            s.conversations)) cid']
        exact curOk_elim s hCur cid' hc
  | clearAll =>
    dsimp only [stepOp]
    unfold clearAllConversations
    dsimp only [saveConvs]
    exact curOk_mk _ _ _ _ (fun cid hc => by cases hc)
  | clearCurrent =>
    dsimp only [stepOp]
    unfold clearCurrentConversation
    exact curOk_mk _ _ _ _ (fun cid hc => by cases hc)

/-! ### Conversation store: message lists only ever grow by appending -/

theorem sendBegin_prefix (content nid uid aid : String) (now : Nat) (s : StoreState)
    (hfresh : freshOp s (StoreOp.sendBegin content nid uid aid now) = true)
    (cid : String) (l l' : List String) (h1 : msgIdsOf s cid = some l)
    (h2 : msgIdsOf (sendMessageBegin content nid uid aid now s) cid = some l') :
    l <+: l' := by
  unfold sendMessageBegin at h2
  cases hcc : currentConv s with
  | some cur =>
    rw [hcc] at h2
    dsimp only at h2
    rw [hcc] at h2
    dsimp only at h2
    obtain ⟨l₁, e₁, p₁⟩ :=
      addMessage_msgIds cur.id (mkUserMessage uid content now) now s cid l h1
    obtain ⟨l₂, e₂, p₂⟩ :=
      addMessage_msgIds cur.id (mkAiMessage aid now) now _ cid l₁ e₁
    rw [e₂] at h2
    cases h2
    exact p₁.trans p₂
  | none =>
    rw [hcc] at h2
    dsimp only at h2
    have hf : hasConvId s nid = false := by
      simp only [freshOp, hcc] at hfresh
      simpa using hfresh
    have h1' := create_msgIds nid none now s cid l hf h1
    rw [create_currentConv] at h2
    dsimp only at h2
    obtain ⟨l₁, e₁, p₁⟩ := addMessage_msgIds (mkConversation nid none now).id
      (mkUserMessage uid content now) now _ cid l h1'
    obtain ⟨l₂, e₂, p₂⟩ := addMessage_msgIds (mkConversation nid none now).id
      (mkAiMessage aid now) now _ cid l₁ e₁
    rw [e₂] at h2
    cases h2
    exact p₁.trans p₂

theorem stepOp_prefix (op : StoreOp) (s : StoreState) (hWf : Wf s)
    (hfresh : freshOp s op = true) (cid : String) (l l' : List String)
    (h1 : msgIdsOf s cid = some l) (h2 : msgIdsOf (stepOp op s) cid = some l') :
    l <+: l' := by
  cases op with
  | load =>
    rw [show stepOp StoreOp.load s = loadConversations s from rfl,
      load_msgIds s hWf cid, h1] at h2
    cases h2
    exact List.prefix_refl l
  | create nid st now =>
    rw [show stepOp (StoreOp.create nid st now) s = createNewConversation nid st now s
        from rfl,
      create_msgIds nid st now s cid l (by simpa [freshOp] using hfresh) h1] at h2
    cases h2
    exact List.prefix_refl l
  | switch scid =>
    dsimp only [stepOp] at h2
    unfold switchConversation at h2
    cases hg : (findConv s.conversations scid).isSome with
    | true =>
      rw [hg] at h2
      simp only [if_true] at h2
      rw [show msgIdsOf
          { s with currentConversationId := some scid, storedCurrentId := some scid }
            cid = msgIdsOf s cid from rfl, h1] at h2
      cases h2
      exact List.prefix_refl l
    | false =>
      rw [hg] at h2
      simp only [Bool.false_eq_true, if_false] at h2
      rw [h1] at h2
      cases h2
      exact List.prefix_refl l
  | delete dcid =>
    dsimp only [stepOp] at h2
    unfold deleteConversation at h2
    cases hg : (findConv s.conversations dcid).isSome with
    | false =>
      rw [hg] at h2
      simp only [Bool.false_eq_true, if_false] at h2
      rw [h1] at h2
      cases h2
      exact List.prefix_refl l
    | true =>
      rw [hg] at h2
      simp only [if_true] at h2
      by_cases hcd : cid = dcid
      · subst hcd
        rw [show msgIdsOf (saveConvs
            { s with
              conversations := s.conversations.eraseP (fun c => c.id == cid),
              currentConversationId :=
                if s.currentConversationId = some cid then
                  Option.map (fun c => c.id)
                    (s.conversations.eraseP (fun c => c.id == cid)).head?
                else s.currentConversationId }) cid
            = msgIdsIn (s.conversations.eraseP (fun c => c.id == cid)) cid from rfl,
          msgIdsIn_eraseP_self cid s.conversations hWf.1] at h2
        cases h2
      · rw [show msgIdsOf (saveConvs
            { s with
              conversations := s.conversations.eraseP (fun c => c.id == dcid),
              currentConversationId :=
                if s.currentConversationId = some dcid then
                  Option.map (fun c => c.id)
                    (s.conversations.eraseP (fun c => c.id == dcid)).head?
                else s.currentConversationId }) cid
            = msgIdsIn (s.conversations.eraseP (fun c => c.id == dcid)) cid from rfl,
          msgIdsIn_eraseP_ne dcid cid hcd s.conversations] at h2
        rw [msgIdsOf] at h1
        rw [h1] at h2
        cases h2
        exact List.prefix_refl l
  | updateTitle tcid title now =>
    dsimp only [stepOp] at h2
    unfold updateConversationTitle at h2
    cases hg : (findConv s.conversations tcid).isSome with
    | false =>
      rw [hg] at h2
      simp only [Bool.false_eq_true, if_false] at h2
      rw [h1] at h2
      cases h2
      exact List.prefix_refl l
    | true =>
      rw [hg] at h2
      simp only [if_true] at h2
      rw [show msgIdsOf (saveConvs
          { s with
            conversations := updateFirst (fun c => c.id == tcid)
              (fun c => { c with title := title, updatedAt := now })
              s.conversations }) cid
          = msgIdsIn (updateFirst (fun c => c.id == tcid)
              (fun c => { c with title := title, updatedAt := now })
              s.conversations) cid from rfl,
        msgIdsIn_updateFirst_shape tcid _ (titleUpdate_shape title now)
          s.conversations cid] at h2
      rw [msgIdsOf] at h1
      rw [h1] at h2
      cases h2
      exact List.prefix_refl l
  | updateSettings st now =>
    dsimp only [stepOp] at h2
    unfold updateConversationSettings at h2
    cases hcc : currentConv s with
    | none =>
      rw [hcc] at h2
      dsimp only at h2
      rw [h1] at h2
      cases h2
      exact List.prefix_refl l
    | some cur =>
      rw [hcc] at h2
      dsimp only at h2
      rw [show msgIdsOf (saveConvs
          { s with
            conversations := updateFirst (fun c => c.id == cur.id)
              (applySettings st now) s.conversations }) cid
          = msgIdsIn (updateFirst (fun c => c.id == cur.id)
              (applySettings st now) s.conversations) cid from rfl,
        msgIdsIn_updateFirst_shape cur.id _ (applySettings_shape st now)
          s.conversations cid] at h2
      rw [msgIdsOf] at h1
      rw [h1] at h2
      cases h2
      exact List.prefix_refl l
  | add acid m now =>
    obtain ⟨l₂, e₂, p₂⟩ := addMessage_msgIds acid m now s cid l h1
    rw [show stepOp (StoreOp.add acid m now) s = addMessage acid m now s from rfl,
      e₂] at h2
    cases h2
    exact p₂
  | sendBegin content nid uid aid now =>
    exact sendBegin_prefix content nid uid aid now s hfresh cid l l' h1 h2
  | chunkArrive aid chunk =>
    dsimp only [stepOp] at h2
    unfold onChunkUpdate at h2
    cases hcc : currentConv s with
    | none =>
      rw [hcc] at h2
      dsimp only at h2
      rw [h1] at h2
      cases h2
      exact List.prefix_refl l
    | some cur =>
      rw [hcc] at h2
      dsimp only at h2
      cases hfm : cur.messages.find? (fun m => m.id == aid) with
      | none =>
        rw [hfm] at h2
        dsimp only at h2
        rw [h1] at h2
        cases h2
        exact List.prefix_refl l
      | some m0 =>
        rw [hfm] at h2
        dsimp only at h2
        rw [msgIdsOf] at h2
        dsimp only at h2
        rw [msgIdsIn_updateFirst_shape cur.id _ (chunkInner_shape aid chunk)
          s.conversations cid] at h2
        rw [msgIdsOf] at h1
        rw [h1] at h2
        cases h2
        exact List.prefix_refl l
  | settleComplete aid respContent now =>
    dsimp only [stepOp] at h2
    unfold onCompleteSettle at h2
    cases hcc : currentConv s with
    | none =>
      rw [hcc] at h2
      dsimp only at h2
      rw [h1] at h2
      cases h2
      exact List.prefix_refl l
    | some cur =>
      rw [hcc] at h2
      dsimp only at h2
      cases hfm : cur.messages.find? (fun m => m.id == aid) with
      | none =>
        rw [hfm] at h2
        dsimp only at h2
        rw [h1] at h2
        cases h2
        exact List.prefix_refl l
      | some m0 =>
        rw [hfm] at h2
        dsimp only at h2
        rw [msgIdsOf] at h2
        simp only [saveConvs] at h2
        rw [msgIdsIn_updateFirst_shape cur.id _
          (settleInner_shape aid respContent now) s.conversations cid] at h2
        rw [msgIdsOf] at h1
        rw [h1] at h2
        cases h2
        exact List.prefix_refl l
  | settleError now =>
    dsimp only [stepOp] at h2
    unfold onErrorSettle at h2
    cases hcc : currentConv s with
    | none =>
      rw [hcc] at h2
      dsimp only at h2
      rw [h1] at h2
      cases h2
      exact List.prefix_refl l
    | some cur =>
      rw [hcc] at h2
      dsimp only at h2
      cases hfm : cur.messages.find? isStreamingAssistant with
      | none =>
        rw [hfm] at h2
        dsimp only at h2
        rw [h1] at h2
        cases h2
        exact List.prefix_refl l
      | some m0 =>
        rw [hfm] at h2
        dsimp only at h2
        rw [msgIdsOf] at h2
        simp only [saveConvs] at h2
        rw [msgIdsIn_updateFirst_shape cur.id _ (settleErrInner_shape now)
          s.conversations cid] at h2
        rw [msgIdsOf] at h1
        rw [h1] at h2
        cases h2
        exact List.prefix_refl l
  | clearAll =>
    rw [show msgIdsOf (stepOp StoreOp.clearAll s) cid = none from rfl] at h2
    cases h2
  | clearCurrent =>
    rw [show msgIdsOf (stepOp StoreOp.clearCurrent s) cid = msgIdsOf s cid from rfl,
      h1] at h2
    cases h2
    exact List.prefix_refl l

/-! ### Conversation store: runs of operations -/

theorem runOps_append (ops : List StoreOp) (op : StoreOp) (s : StoreState) :
    runOps (ops ++ [op]) s = stepOp op (runOps ops s) := by
  simp [runOps, List.foldl_append]

theorem freshRun_append_one (s : StoreState) (ops : List StoreOp) (op : StoreOp)
    (h : freshRun s (ops ++ [op]) = true) :
    freshRun s ops = true ∧ freshOp (runOps ops s) op = true := by
  induction ops generalizing s with
  | nil => simpa [freshRun, runOps] using h
  | cons o os ih =>
    simp only [List.cons_append, freshRun, Bool.and_eq_true] at h
    obtain ⟨h1, h2⟩ := h
    obtain ⟨h3, h4⟩ := ih (stepOp o s) h2
    exact ⟨by simp [freshRun, h1, h3], by simpa [runOps] using h4⟩

theorem runOps_inv (ops : List StoreOp) (s : StoreState) (h : Inv s)
    (hf : freshRun s ops = true) : Inv (runOps ops s) := by
  induction ops generalizing s with
  | nil => exact h
  | cons o os ih =>
    simp only [freshRun, Bool.and_eq_true] at hf
    exact ih (stepOp o s) ⟨stepOp_wf o s h.1 hf.1, stepOp_curOk o s h.1 h.2⟩ hf.2

theorem initState_inv (stored0 : Option (List Conversation))
    (h0 : ((stored0.getD []).map (fun c => c.id)).Nodup) :
    Inv (initState stored0) := by
  unfold initState loadConversations
  cases stored0 with
  | none => exact ⟨⟨List.nodup_nil, fun l hl => by cases hl⟩, rfl⟩
  | some saved =>
    cases saved with
    | nil => exact ⟨⟨List.nodup_nil, fun l hl => by cases hl; rfl⟩, rfl⟩
    | cons c rest =>
      refine ⟨⟨by simpa using h0, fun l hl => by cases hl; rfl⟩, ?_⟩
      simp [CurOk, findConv, List.find?_cons]

/-! ### Conversation store: the send-begin phase appends exactly two messages -/

theorem addMessage_findConv (tid : String) (m : Message) (now : Nat)
    (s : StoreState) (c : Conversation) (h : findConv s.conversations tid = some c) :
    findConv (addMessage tid m now s).conversations tid = some (appendMsg m now c) := by
  unfold addMessage
  rw [h]
  simp only [Option.isSome_some, if_true]
  show findConv (updateFirst (fun c => c.id == tid) (appendMsg m now)
    s.conversations) tid = some (appendMsg m now c)
  unfold findConv at h ⊢
  rw [find?_updateFirst_eq (fun c => c.id) (appendMsg m now) (appendMsg_id m now)
    tid s.conversations, h]
  rfl

theorem currentConv_destruct (s : StoreState) (cur : Conversation)
    (h : currentConv s = some cur) :
    ∃ cid0, s.currentConversationId = some cid0 ∧
      findConv s.conversations cid0 = some cur ∧ cur.id = cid0 := by
  unfold currentConv at h
  cases hc : s.currentConversationId with
  | none => rw [hc] at h; cases h
  | some cid0 =>
    rw [hc] at h
    dsimp only at h
    refine ⟨cid0, rfl, h, ?_⟩
    have := List.find?_some h
    simpa using this

/-! ### Supervisor router: hop-limited routing always aggregates -/

theorem aggregateOut_ne (g : String) : aggregateOut g ≠ "" := by
  unfold aggregateOut
  split
  · decide
  · assumption

theorem supGo_props (env : SupEnv) :
    ∀ (n hops : Nat) (gathered : String), maxHops + 1 - hops ≤ n →
      (supGo env hops gathered).2 ≠ "" ∧
      (supGo env hops gathered).1.count SupState.FAILED = 0 ∧
      (supGo env hops gathered).1.count SupState.CLASSIFY ≤ maxHops + 1 - hops := by
  intro n
  induction n with
  | zero =>
    intro hops gathered hn
    have hgt : hops > maxHops := by omega
    rw [supGo, if_pos hgt]
    refine ⟨aggregateOut_ne _, by simp, by simp⟩
  | succ n ih =>
    intro hops gathered hn
    by_cases hgt : hops > maxHops
    · rw [supGo, if_pos hgt]
      refine ⟨aggregateOut_ne _, by simp, by simp⟩
    · rw [supGo, if_neg hgt]
      have hle : maxHops + 1 - (hops + 1) ≤ n := by omega
      cases hcl : env.classify hops with
      | direct =>
        refine ⟨aggregateOut_ne _, by simp, by simp⟩
      | research =>
        cases hhb : (env.researchRun hops).handBack with
        | false =>
          simp only [hhb, Bool.false_eq_true, if_false]
          refine ⟨aggregateOut_ne _, by simp, by simp⟩
        | true =>
          simp only [hhb, if_true]
          obtain ⟨hne, hfail, hcls⟩ :=
            ih (hops + 1) (gathered ++ (env.researchRun hops).output) hle
          refine ⟨hne, ?_, ?_⟩
          · rw [List.count_cons_of_ne (by decide), List.count_cons_of_ne (by decide)]
            exact hfail
          · rw [List.count_cons_of_ne (by decide), List.count_cons_self]
            omega
      | writing =>
        cases hhb : (env.writingRun hops).handBack with
        | false =>
          simp only [hhb, Bool.false_eq_true, if_false]
          refine ⟨aggregateOut_ne _, by simp, by simp⟩
        | true =>
          simp only [hhb, if_true]
          obtain ⟨hne, hfail, hcls⟩ :=
            ih (hops + 1) (gathered ++ (env.writingRun hops).output) hle
          refine ⟨hne, ?_, ?_⟩
          · rw [List.count_cons_of_ne (by decide), List.count_cons_of_ne (by decide)]
            exact hfail
          · rw [List.count_cons_of_ne (by decide), List.count_cons_self]
            omega

/-! ### SSE reader: a completion event can only be the last event -/

theorem complete_position (frs : List String) (rest : List SSEEvent)
    (hrest : ∀ i c, rest.get? i = some (SSEEvent.complete c) → i + 1 = rest.length) :
    ∀ i c, (frs.map SSEEvent.chunk ++ rest).get? i = some (SSEEvent.complete c) →
      i + 1 = (frs.map SSEEvent.chunk ++ rest).length := by
  induction frs with
  | nil => simpa using hrest
  | cons f frs ih =>
    intro i c hi
    cases i with
    | zero => simp at hi
    | succ j =>
      have hj := ih j c (by simpa using hi)
      simp only [List.map_cons, List.cons_append, List.length_cons]
      omega

theorem countP_complete_append (frs : List String) (rest : List SSEEvent) :
    (frs.map SSEEvent.chunk ++ rest).countP
        (fun e => match e with | SSEEvent.complete _ => true | _ => false)
      = rest.countP (fun e => match e with | SSEEvent.complete _ => true | _ => false) := by
  rw [List.countP_append]
  have : (frs.map SSEEvent.chunk).countP
      (fun e => match e with | SSEEvent.complete _ => true | _ => false) = 0 := by
    rw [List.countP_eq_zero]
    intro e he
    rw [List.mem_map] at he
    obtain ⟨f, _, rfl⟩ := he
    simp
  omega

/-! ## Claims -/

/-- Claim C1, counterexample: the claim quantifies over every SSE byte
stream, but the reader splits each read chunk on newlines separately, so a
`data:` line split across two reads is mis-parsed. On the byte stream
`"data: ab" · "c\n" · "data: [DONE]"` the stream's only fragment payload is
`"abc"` (and the spec-prescribed events are `chunk "abc"`, `complete "abc"`),
yet the client forwards `"ab"` and completes with content `"ab"`. -/
theorem c1_counterexample :
    sendMessageEvents [["data: ab"], ["c", ""], ["data: [DONE]"]]
      = [SSEEvent.chunk "ab", SSEEvent.complete "ab"] ∧
    specEvents (streamLines [["data: ab"], ["c", ""], ["data: [DONE]"]])
      = [SSEEvent.chunk "abc", SSEEvent.complete "abc"] :=
  ⟨by decide, by decide⟩

/-- Claim C1, amended: for every SSE byte stream whose read chunks end on
line boundaries (each decoded chunk's split ends with an empty last line),
`chatAPI.sendMessage` forwards each fragment payload to `onChunk` in arrival
order, never forwards the `[DONE]` sentinel, and on the first sentinel
invokes `onComplete` with exactly the concatenation, in arrival order, of
every fragment forwarded before it. -/
theorem c1_amended_thm (chunks : List (List String))
    (h : ∀ c ∈ chunks, c.getLast? = some "") :
    sendMessageEvents chunks = specEvents (streamLines chunks) := by
  rw [sendMessageEvents, clientLines, processLines_flatten chunks h "",
    processLines_eq_specEvents]

/-- Claim C1, witness: the amended theorem applied to a concrete two-chunk
stream. -/
theorem c1_witness :
    (∀ c ∈ [["data: a", ""], ["data: [DONE]", ""]], c.getLast? = some "") ∧
    sendMessageEvents [["data: a", ""], ["data: [DONE]", ""]]
      = specEvents (streamLines [["data: a", ""], ["data: [DONE]", ""]]) :=
  ⟨by decide, c1_amended_thm [["data: a", ""], ["data: [DONE]", ""]] (by decide)⟩

/-- Claim C2, counterexample: a request submitted while a send is in flight
(`isLoading = true`) is not rejected with a typed conflict error — the
handler returns the same silent no-op outcome as a blank submission, and the
embedding's outcome type (`ignored`/`forwarded`, derived from the code) has
no error constructor at all; the send button is merely disabled. -/
theorem c2_counterexample :
    handleSendMessage "hello" true = SendAttemptResult.ignored ∧
    handleSendMessage "" false = SendAttemptResult.ignored ∧
    canSend "hello" true = false :=
  ⟨by decide, by decide, by decide⟩

/-- Claim C2, amended: a second request submitted on the conversation while
a previous one has not settled is silently ignored (the guard returns with
no effect and no error value, and `canSend` disables the button); no typed
conflict error is produced; after the first settles (`isLoading = false`), a
retried non-blank request is admitted normally. -/
theorem c2_amended_thm (content : String) (h : (strTrim content == "") = false) :
    handleSendMessage content true = SendAttemptResult.ignored ∧
    canSend content true = false ∧
    handleSendMessage content false = SendAttemptResult.forwarded := by
  refine ⟨?_, ?_, ?_⟩
  · unfold handleSendMessage
    simp
  · unfold canSend
    simp
  · unfold handleSendMessage
    rw [h]
    simp

/-- Claim C2, witness: the amended theorem at the concrete input `"hi"`. -/
theorem c2_witness :
    (strTrim "hi" == "") = false ∧
    (handleSendMessage "hi" true = SendAttemptResult.ignored ∧
     canSend "hi" true = false ∧
     handleSendMessage "hi" false = SendAttemptResult.forwarded) :=
  ⟨by decide, c2_amended_thm "hi" (by decide)⟩

/-- Claim C3, counterexample: settlement is not idempotent. In a store whose
current conversation holds an already-settled assistant message with content
`"first"`, invoking the completion settlement again with a different outcome
overwrites the persisted content with `"second"` instead of being a no-op. -/
theorem c3_counterexample :
    (findConv c3State.conversations "c1").map
        (fun c => c.messages.map (fun m => m.content)) = some ["first"] ∧
    c3Message.isStreaming = false ∧
    (findConv (onCompleteSettle "m1" "second" 5 c3State).conversations "c1").map
        (fun c => c.messages.map (fun m => m.content)) = some ["second"] :=
  ⟨by decide, by decide, by decide⟩

/-- Claim C3, amended: the first settlement transitions the message to
`streaming = false` with its final content; a subsequent error-path
settlement is a no-op (it only targets messages still streaming), but a
subsequent completion-path settlement for the same message overwrites the
persisted content with the new outcome. -/
theorem c3_amended_thm :
    (∀ (s : StoreState) (now : Nat) (cur : Conversation),
      currentConv s = some cur →
      cur.messages.find? isStreamingAssistant = none →
      onErrorSettle now s = s) ∧
    (∀ (s : StoreState) (now : Nat) (cur : Conversation) (aid c1 : String)
        (m : Message),
      currentConv s = some cur →
      cur.messages.find? (fun mm => mm.id == aid) = some m →
      ∃ l₁ l₂, cur.messages = l₁ ++ m :: l₂ ∧
        (findConv (onCompleteSettle aid c1 now s).conversations cur.id).map
            (fun c => c.messages)
          = some (l₁ ++ settleMsg c1 m :: l₂) ∧
        (settleMsg c1 m).content = c1 ∧ (settleMsg c1 m).isStreaming = false) := by
  constructor
  · intro s now cur hcc hfind
    unfold onErrorSettle
    rw [hcc]
    dsimp only
    rw [hfind]
  · intro s now cur aid c1 m hcc hfind
    unfold onCompleteSettle
    rw [hcc]
    dsimp only
    rw [hfind]
    dsimp only [saveConvs]
    obtain ⟨cid0, hc0, hf0, hid⟩ := currentConv_destruct s cur hcc
    have hfc : findConv s.conversations cur.id = some cur := by
      rw [hid]
      exact hf0
    rcases updateFirst_spec (fun mm => mm.id == aid) (settleMsg c1) cur.messages with
      ⟨hnone, _⟩ | ⟨l₁, x, l₂, hdec, hl₁, hx, hfeq, hupd⟩
    · rw [hnone] at hfind
      cases hfind
    · rw [hfeq] at hfind
      cases hfind
      refine ⟨l₁, l₂, hdec, ?_, rfl, rfl⟩
      have hupdc := find?_updateFirst_eq (fun c : Conversation => c.id)
        (fun c =>
          { c with
            messages := updateFirst (fun mm => mm.id == aid) (settleMsg c1)
              c.messages
            updatedAt := now }) (fun c => rfl) cur.id s.conversations
      unfold findConv at hfc ⊢
      rw [hupdc, hfc]
      dsimp only [Option.map_some']
      rw [hupd]

/-- Claim C4: for every sequence of store operations run from the store's
initial state (fresh ids for created conversations, well-formed persisted
data), a conversation's message-id sequence before a step is a prefix of its
sequence after the step: messages are only ever appended at the end of the
owning conversation's list, and positions (list indices) of already-present
messages never change — hence sequence positions stay strictly increasing
and gapless. -/
theorem c4_thm (stored0 : Option (List Conversation)) (ops : List StoreOp)
    (op : StoreOp) (cid : String) (l l' : List String)
    (h0 : ((stored0.getD []).map (fun c => c.id)).Nodup)
    (hf : freshRun (initState stored0) (ops ++ [op]) = true)
    (h1 : msgIdsOf (runOps ops (initState stored0)) cid = some l)
    (h2 : msgIdsOf (runOps (ops ++ [op]) (initState stored0)) cid = some l') :
    l <+: l' := by
  obtain ⟨hf1, hf2⟩ := freshRun_append_one (initState stored0) ops op hf
  have hinv := runOps_inv ops (initState stored0) (initState_inv stored0 h0) hf1
  rw [runOps_append] at h2
  exact stepOp_prefix op (runOps ops (initState stored0)) hinv.1 hf2 cid l l' h1 h2

/-- Claim C4, witness: a concrete run (create a conversation, append a user
message, then append an assistant message) in which the message-id sequence
grows from `["u"]` to `["u", "v"]` by appending. -/
theorem c4_witness :
    (((none : Option (List Conversation)).getD []).map (fun c => c.id)).Nodup ∧
    freshRun (initState none) (c4ops ++ [c4op]) = true ∧
    msgIdsOf (runOps c4ops (initState none)) "A" = some ["u"] ∧
    msgIdsOf (runOps (c4ops ++ [c4op]) (initState none)) "A" = some ["u", "v"] ∧
    ["u"] <+: ["u", "v"] :=
  ⟨by decide, by decide, by decide, by decide,
    c4_thm none c4ops c4op "A" ["u"] ["u", "v"] (by decide) (by decide) (by decide)
      (by decide)⟩

/-- Claim C5: whenever a send begins, the current conversation (created
fresh when none exists) receives exactly two appended messages — the user
message followed immediately by exactly one new assistant message with
`streaming = true` — at the next positions of its ordered message list. -/
theorem c5_thm (content nid uid aid : String) (now : Nat) (s : StoreState) :
    ∃ cid,
      (sendMessageBegin content nid uid aid now s).currentConversationId
        = some cid ∧
      (findConv (sendMessageBegin content nid uid aid now s).conversations cid).map
          (fun c => c.messages)
        = some ((((currentConv s).map (fun c => c.messages)).getD [])
            ++ [mkUserMessage uid content now, mkAiMessage aid now]) ∧
      (mkAiMessage aid now).role = Role.assistant ∧
      (mkAiMessage aid now).isStreaming = true ∧
      (mkUserMessage uid content now).role = Role.user ∧
      (mkUserMessage uid content now).isStreaming = false := by
  unfold sendMessageBegin
  cases hcc : currentConv s with
  | some cur =>
    dsimp only
    rw [hcc]
    dsimp only
    obtain ⟨cid0, hc0, hf0, hid⟩ := currentConv_destruct s cur hcc
    have h1 : findConv s.conversations cur.id = some cur := by
      rw [hid]
      exact hf0
    have h2 := addMessage_findConv cur.id (mkUserMessage uid content now) now s cur h1
    have h3 := addMessage_findConv cur.id (mkAiMessage aid now) now
      (addMessage cur.id (mkUserMessage uid content now) now s)
      (appendMsg (mkUserMessage uid content now) now cur) h2
    refine ⟨cur.id, ?_, ?_, rfl, rfl, rfl, rfl⟩
    · rw [addMessage_currentId, addMessage_currentId, hc0, hid]
    · rw [h3]
      dsimp only [Option.map_some']
      rw [appendMsg_messages, appendMsg_messages]
      simp [List.append_assoc]
  | none =>
    dsimp only
    rw [create_currentConv]
    dsimp only [mkConversation]
    have h1 : findConv (createNewConversation nid none now s).conversations nid
        = some (mkConversation nid none now) := by
      simp [createNewConversation, saveConvs, findConv, List.find?_cons,
        mkConversation]
    have h2 := addMessage_findConv nid (mkUserMessage uid content now) now
      (createNewConversation nid none now s) (mkConversation nid none now) h1
    have h3 := addMessage_findConv nid (mkAiMessage aid now) now
      (addMessage nid (mkUserMessage uid content now) now
        (createNewConversation nid none now s))
      (appendMsg (mkUserMessage uid content now) now (mkConversation nid none now)) h2
    refine ⟨nid, ?_, ?_, rfl, rfl, rfl, rfl⟩
    · rw [addMessage_currentId, addMessage_currentId]
      simp [createNewConversation, saveConvs]
    · rw [h3]
      dsimp only [Option.map_some']
      rw [appendMsg_messages, appendMsg_messages]
      simp [mkConversation]

/-- Claim C6, counterexample: the error settlement targets the *current*
conversation at callback time, so when the user has switched to conversation
`B` while the admitted send's assistant message lives in conversation `A`,
the error path is a complete no-op and `A`'s message is never settled — it
stays `streaming = true` with empty content. -/
theorem c6_counterexample :
    onErrorSettle 9 c6State = c6State ∧
    (findConv c6State.conversations "A").map
        (fun c => c.messages.map (fun m => m.isStreaming)) = some [true] :=
  ⟨by decide, by decide⟩

/-- Claim C6, amended: for every send that fails after admission, *provided
the conversation that admitted the send is still current when the error is
handled*, the first streaming assistant message of that conversation is
settled in place: `streaming = false` with the fixed non-empty explanatory
content, all other messages untouched. -/
theorem c6_amended_thm (s : StoreState) (now : Nat) (cur : Conversation)
    (hcc : currentConv s = some cur) (m : Message)
    (hfind : cur.messages.find? isStreamingAssistant = some m) :
    ∃ l₁ l₂, cur.messages = l₁ ++ m :: l₂ ∧
      m.role = Role.assistant ∧ m.isStreaming = true ∧
      (∀ y ∈ l₁, isStreamingAssistant y = false) ∧
      (findConv (onErrorSettle now s).conversations cur.id).map
          (fun c => c.messages)
        = some (l₁ ++ settleMsg errorReply m :: l₂) ∧
      (settleMsg errorReply m).isStreaming = false ∧
      (settleMsg errorReply m).content = errorReply ∧
      errorReply ≠ "" := by
  unfold onErrorSettle
  rw [hcc]
  dsimp only
  rw [hfind]
  dsimp only [saveConvs]
  obtain ⟨cid0, hc0, hf0, hid⟩ := currentConv_destruct s cur hcc
  have hfc : findConv s.conversations cur.id = some cur := by
    rw [hid]
    exact hf0
  rcases updateFirst_spec isStreamingAssistant (settleMsg errorReply) cur.messages with
    ⟨hnone, _⟩ | ⟨l₁, x, l₂, hdec, hl₁, hx, hfeq, hupd⟩
  · rw [hnone] at hfind
    cases hfind
  · rw [hfeq] at hfind
    cases hfind
    have hrole : m.role = Role.assistant ∧ m.isStreaming = true := by
      unfold isStreamingAssistant at hx
      rw [Bool.and_eq_true] at hx
      exact ⟨by simpa using hx.1, hx.2⟩
    refine ⟨l₁, l₂, hdec, hrole.1, hrole.2, hl₁, ?_, rfl, rfl, by decide⟩
    have hupdc := find?_updateFirst_eq (fun c : Conversation => c.id)
      (fun c =>
        { c with
          messages := updateFirst isStreamingAssistant (settleMsg errorReply)
            c.messages
          updatedAt := now }) (fun c => rfl) cur.id s.conversations
    unfold findConv at hfc ⊢
    rw [hupdc, hfc]
    dsimp only [Option.map_some']
    rw [hupd]

/-- Claim C6, witness: the amended theorem at a concrete store whose current
conversation holds the in-flight streaming assistant message. -/
theorem c6_witness :
    currentConv c6wState = some c6ConvA ∧
    c6ConvA.messages.find? isStreamingAssistant = some c6StreamingMsg ∧
    (∃ l₁ l₂, c6ConvA.messages = l₁ ++ c6StreamingMsg :: l₂ ∧
      c6StreamingMsg.role = Role.assistant ∧ c6StreamingMsg.isStreaming = true ∧
      (∀ y ∈ l₁, isStreamingAssistant y = false) ∧
      (findConv (onErrorSettle 9 c6wState).conversations c6ConvA.id).map
          (fun c => c.messages)
        = some (l₁ ++ settleMsg errorReply c6StreamingMsg :: l₂) ∧
      (settleMsg errorReply c6StreamingMsg).isStreaming = false ∧
      (settleMsg errorReply c6StreamingMsg).content = errorReply ∧
      errorReply ≠ "") :=
  ⟨by decide, by decide,
    c6_amended_thm c6wState 9 c6ConvA (by decide) c6StreamingMsg (by decide)⟩

/-- Claim C7, counterexample: the claim asserts that stream termination
reaches exactly one terminal settle call, but a stream that ends (`done`)
without the `[DONE]` sentinel produces *no* completion callback at all: the
reader simply breaks out of the loop and returns. -/
theorem c7_counterexample :
    sendMessageEvents [["data: hi", ""]] = [SSEEvent.chunk "hi"] := by decide

/-- Claim C7, amended: when the sentinel is observed the session reaches
exactly one terminal completion callback and no fragment is forwarded after
it (a completion event can only be the last event); a stream that terminates
without the sentinel produces no completion callback. -/
theorem c7_amended_thm (chunks : List (List String)) :
    sendMessageEvents chunks = specEvents (clientLines chunks) ∧
    (∀ i c, (sendMessageEvents chunks).get? i = some (SSEEvent.complete c) →
      i + 1 = (sendMessageEvents chunks).length) ∧
    (sendMessageEvents chunks).countP
        (fun e => match e with | SSEEvent.complete _ => true | _ => false)
      = (if hasSentinel (clientLines chunks) then 1 else 0) := by
  have hchar : sendMessageEvents chunks
      = (fragments (clientLines chunks)).map SSEEvent.chunk ++
        (if hasSentinel (clientLines chunks) then
          [SSEEvent.complete (concatAll (fragments (clientLines chunks)))]
        else []) := by
    rw [sendMessageEvents, processLines_eq_specEvents, specEvents]
  refine ⟨by rw [sendMessageEvents, processLines_eq_specEvents], ?_, ?_⟩
  · rw [hchar]
    apply complete_position
    cases hs : hasSentinel (clientLines chunks) with
    | true =>
      simp only [if_true]
      intro i c hi
      cases i with
      | zero => simp
      | succ j => simp at hi
    | false =>
      simp only [Bool.false_eq_true, if_false]
      intro i c hi
      simp at hi
  · rw [hchar, countP_complete_append]
    cases hs : hasSentinel (clientLines chunks) with
    | true => simp [List.countP_cons]
    | false => simp

/-- Claim C8: spec-modelled supervisor routing (the backend source is not in
the repository snapshot). For every environment — every sequence of
classifier decisions and team outcomes, including teams that hand back
forever — the run completes: the hop counter bounds `CLASSIFY` entries, the
trace never visits `FAILED`, the trace ends at `COMPLETE`, and the client
receives a complete response (`isComplete = true`) with non-empty content. -/
theorem c8_thm (env : SupEnv) :
    (supervisorRespond env).isComplete = true ∧
    (supervisorRespond env).content ≠ "" ∧
    (supTrace env).count SupState.FAILED = 0 ∧
    (supTrace env).count SupState.CLASSIFY ≤ maxHops + 2 ∧
    (supTrace env).getLast? = some SupState.COMPLETE := by
  obtain ⟨hne, hfail, hcls⟩ := supGo_props env (maxHops + 1) 0 "" (by omega)
  refine ⟨rfl, hne, ?_, ?_, ?_⟩
  · unfold supTrace
    rw [List.count_append,
      List.count_cons_of_ne (show SupState.FAILED ≠ SupState.INIT by decide),
      List.count_cons_of_ne (show SupState.FAILED ≠ SupState.CLASSIFY by decide)]
    have h2 : ([SupState.COMPLETE].count SupState.FAILED) = 0 := by decide
    omega
  · unfold supTrace
    rw [List.count_append,
      List.count_cons_of_ne (show SupState.CLASSIFY ≠ SupState.INIT by decide),
      List.count_cons_self]
    have h2 : ([SupState.COMPLETE].count SupState.CLASSIFY) = 0 := by decide
    omega
  · unfold supTrace
    exact List.getLast?_concat _

/-- Claim C9: from the store's initial state, every run of exported
operations keeps `currentConversationId` either null or the id of a
conversation present in the list; and deleting the current conversation
switches the current id to the first remaining conversation or to null. -/
theorem c9_thm (stored0 : Option (List Conversation)) (ops : List StoreOp)
    (h0 : ((stored0.getD []).map (fun c => c.id)).Nodup)
    (hf : freshRun (initState stored0) ops = true) :
    CurOk (runOps ops (initState stored0)) = true ∧
    ∀ cid, (runOps ops (initState stored0)).currentConversationId = some cid →
      (deleteConversation cid (runOps ops (initState stored0))).currentConversationId
        = (((runOps ops (initState stored0)).conversations.eraseP
            (fun c => c.id == cid)).head?).map (fun c => c.id) := by
  have hinv := runOps_inv ops (initState stored0) (initState_inv stored0 h0) hf
  refine ⟨hinv.2, ?_⟩
  intro cid hcc
  have hfind := curOk_elim _ hinv.2 cid hcc
  unfold deleteConversation
  rw [if_pos hfind]
  dsimp only [saveConvs]
  rw [if_pos hcc]

/-- Claim C9, witness: a concrete run (two creations and a switch) after
which the invariant holds. -/
theorem c9_witness :
    (((none : Option (List Conversation)).getD []).map (fun c => c.id)).Nodup ∧
    freshRun (initState none) c9ops = true ∧
    CurOk (runOps c9ops (initState none)) = true :=
  ⟨by decide, by decide, (c9_thm none c9ops (by decide) (by decide)).1⟩

/-- Claim C10, counterexample: the claim says `storage.getConversations`
always returns a list, but for stored data `"5"` — a localStorage state with
valid JSON that is not an array — the parsed value is returned as-is: the
number `5`, not a list. -/
theorem c10_counterexample :
    getConversations (fun k => if k = CONVERSATIONS_KEY then some "5" else none)
      (fun str => if str = "5" then some (Json.num 5) else none) = Json.num 5 ∧
    (Json.num 5).isArr = false :=
  ⟨rfl, rfl⟩

/-- Claim C10, amended: the readers are total — no parse exception escapes.
`storage.getConversations` returns the empty list on a missing key, empty
string or unparsable data, and a list whenever the stored JSON parses to an
array; `loadFromLocalStorage` returns null on a missing key or unparsable
data and the parsed value otherwise. -/
theorem c10_amended_thm (getItem : String → Option String)
    (parse : String → Option Json)
    (h : ∀ d v, getItem CONVERSATIONS_KEY = some d → parse d = some v →
      v.isArr = true) :
    (getConversations getItem parse).isArr = true ∧
    (∀ key, getItem key = none →
      loadFromLocalStorage getItem parse key = Json.null) ∧
    (∀ key d, getItem key = some d → parse d = none →
      loadFromLocalStorage getItem parse key = Json.null) := by
  refine ⟨?_, ?_, ?_⟩
  · unfold getConversations
    cases hg : getItem CONVERSATIONS_KEY with
    | none => rfl
    | some d =>
      dsimp only
      by_cases hd : d = ""
      · rw [if_pos hd]
        rfl
      · rw [if_neg hd]
        cases hp : parse d with
        | none => rfl
        | some v => exact h d v hg hp
  · intro key hk
    unfold loadFromLocalStorage
    rw [hk]
  · intro key d hk hp
    unfold loadFromLocalStorage
    rw [hk]
    dsimp only
    by_cases hd : d = ""
    · rw [if_pos hd]
    · rw [if_neg hd, hp]

/-- Claim C10, witness: the amended theorem at the empty localStorage. -/
theorem c10_witness :
    (getConversations (fun _ => none) (fun _ => none)).isArr = true ∧
    (∀ key : String, (none : Option String) = none →
      loadFromLocalStorage (fun _ => none) (fun _ => none) key = Json.null) ∧
    (∀ key d : String, (none : Option String) = some d →
      (none : Option Json) = none →
      loadFromLocalStorage (fun _ => none) (fun _ => none) key = Json.null) :=
  c10_amended_thm (fun _ => none) (fun _ => none) (fun d v hd _ => by cases hd)

end HierChat
